import Mathlib

/-!
Shallow embedding of the rule-aware retrieval-and-review pipeline of the
`approve_assistant` backend: the document chunker
(`backend/document/chunker.py`), the embedding pipeline
(`backend/document/embedding.py`), the in-memory vector store
(`backend/vector/vector_store.py`), the rule-aware query builder
(`backend/execution/query_builder.py`), the review output validator
(`backend/execution/review_prompt.py`) and the review executor
(`backend/execution/executor.py`), together with theorems settling the
specification claims about them.

Python strings are modelled as Lean `String` (both index by Unicode code
points), Python `int`/`float` as `ℚ` (or `ℕ`/`ℤ` where the source only uses
integers), Python dicts as insertion-ordered association lists, and Python
exceptions as `Except`/`Option` results.  External effects (the OpenAI client,
`hashlib.sha256`, `numpy` cosine scores, the LLM call) are passed in as
function parameters.
-/

/-! ### Python string helpers -/

/-- The whitespace characters stripped by Python `str.strip()`
(the ASCII ones; exotic Unicode whitespace does not occur in this pipeline). -/
def pyIsSpace (c : Char) : Bool :=
  c == ' ' || c == '\t' || c == '\n' || c == '\r' || c == '\x0b' || c == '\x0c'

/-- Python `str.strip()`. -/
def pyStrip (s : String) : String :=
  String.mk (((s.toList.dropWhile pyIsSpace).reverse.dropWhile pyIsSpace).reverse)

/-- Python slicing `s[n:]` (by code points). -/
def strDrop (s : String) (n : ℕ) : String := String.mk (s.toList.drop n)

/-- Python slicing `s[:-n]` (by code points). -/
def strDropRight (s : String) (n : ℕ) : String :=
  String.mk (s.toList.take (s.toList.length - n))

/-- Python slicing `s[:n]` (by code points). -/
def strTake (s : String) (n : ℕ) : String := String.mk (s.toList.take n)

/-- Python `str.lower()` (per code point; exact for the ASCII range this
pipeline lowercases). -/
def pyLower (s : String) : String := String.mk (s.toList.map Char.toLower)

/-- Python `abs` on a rational. -/
def pyAbs (q : ℚ) : ℚ := if q < 0 then -q else q

/-- Python `needle in haystack` on strings: the substring test. -/
def pySubstr (needle haystack : String) : Bool :=
  decide (needle.toList <:+: haystack.toList)

/-- Python `s.startswith(pre)`. -/
def pyStartsWith (s pre : String) : Bool := pre.toList.isPrefixOf s.toList

/-- Python `s.endswith(suf)`. -/
def pyEndsWith (s suf : String) : Bool := suf.toList.isSuffixOf s.toList

/-! ### JSON values

`json.loads` output.  Numbers are modelled as rationals; booleans are kept
separate from numbers at the type level, but the validator semantics below
accounts for Python's `isinstance(True, int) == True`. -/

inductive Json where
  | null : Json
  | bool (b : Bool) : Json
  | num (q : ℚ) : Json
  | str (s : String) : Json
  | arr (xs : List Json) : Json
  | obj (kvs : List (String × Json)) : Json

/-- Python `field in data` for a JSON value: key membership for objects,
element equality for arrays, substring test for strings; any other type raises
`TypeError`, modelled as `none`. -/
def Json.pyContains (data : Json) (field : String) : Option Bool :=
  match data with
  | .obj kvs => some (kvs.lookup field).isSome
  | .arr xs => some (xs.any fun j => match j with | .str t => t == field | _ => false)
  | .str s => some (pySubstr field s)
  | _ => none

/-- Python `data[key]` with a string key: dict lookup; indexing any other type
with a string raises (`TypeError`/`KeyError`), modelled as `none`. -/
def Json.pyIndex (data : Json) (key : String) : Option Json :=
  match data with
  | .obj kvs => kvs.lookup key
  | _ => none

/-- Python `data.get(key, default)` on a parsed JSON object. -/
def Json.get (data : Json) (key : String) (default : Json) : Json :=
  match data with
  | .obj kvs => (kvs.lookup key).getD default
  | _ => default

/-! ### `ReviewPromptValidator.validate_prompt_output`
(`backend/execution/review_prompt.py`, lines 202-277) -/

/-- The dict returned by `validate_prompt_output`. -/
structure VResult where
  valid : Bool
  error : Option String
  data : Option Json

namespace ReviewPromptValidator

/-- Lines 221-228: strip surrounding whitespace and markdown code fences. -/
def strip_fences (output : String) : String :=
  let o := pyStrip output
  let o := if pyStartsWith o "```json" then strDrop o 7 else o
  let o := if pyStartsWith o "```" then strDrop o 3 else o
  let o := if pyEndsWith o "```" then strDropRight o 3 else o
  pyStrip o

/-- Lines 233-237: `for field in required_fields: if field not in data: ...`.
A `TypeError` from `in` is caught by the outer `except Exception`; the model
returns its error message directly (the interpreter-generated message text is
abbreviated to `"Validation error: TypeError"`). -/
def check_required (data : Json) : List String → Option String
  | [] => none
  | f :: fs =>
    match data.pyContains f with
    | none => some "Validation error: TypeError"
    | some false => some ("Missing required field: " ++ f)
    | some true => check_required data fs

/-- Lines 240-243: `data["status"] not in valid_statuses`.  (The message text
after `"Invalid status"` interpolates Python `repr`s and is abbreviated.) -/
def status_error (data : Json) : Option String :=
  match data.pyIndex "status" with
  | none => some "Validation error: TypeError"
  | some sv =>
    let ok := match sv with
      | .str s => s == "PASS" || s == "RISK" || s == "MISSING"
      | _ => false
    if ok then none else some "Invalid status"

/-- Lines 251-260: validation of one element of the `evidence` array. -/
def evidence_item_error (ev : Json) : Option String :=
  match ev with
  | .obj kvs =>
    let rec go : List String → Option String
      | [] => none
      | f :: fs => if (kvs.lookup f).isSome then go fs
                   else some ("Missing evidence field: " ++ f)
    go ["chunk_id", "page", "text"]
  | _ => some "Each evidence item must be an object"

/-- Lines 246-260: the `evidence` checks (run only when the key is present). -/
def evidence_error (data : Json) : Option String :=
  match data.pyIndex "evidence" with
  | none => none
  | some (.arr items) =>
    let rec go : List Json → Option String
      | [] => none
      | ev :: rest =>
        match evidence_item_error ev with
        | some e => some e
        | none => go rest
    go items
  | some _ => some "evidence must be an array"

/-- Lines 263-267: the `confidence` check.  Python's
`isinstance(conf, (int, float))` also accepts `bool` (a subclass of `int`),
and `0 <= True <= 1` and `0 <= False <= 1` both hold. -/
def confidence_error (data : Json) : Option String :=
  match data.pyIndex "confidence" with
  | none => none
  | some conf =>
    let ok := match conf with
      | .num q => decide (0 ≤ q) && decide (q ≤ 1)
      | .bool _ => true
      | _ => false
    if ok then none else some "confidence must be a number between 0 and 1"

/-- Lines 233-267 in sequence: the first validation error, if any. -/
def validation_error (data : Json) : Option String :=
  match check_required data ["rule_id", "status", "reason"] with
  | some e => some e
  | none =>
    match status_error data with
    | some e => some e
    | none =>
      match evidence_error data with
      | some e => some e
      | none => confidence_error data

/-- Lines 202-277.  `parse` models `json.loads` on the fence-stripped text
(`none` = `json.JSONDecodeError`, whose message is abbreviated). -/
def validate_prompt_output (parse : String → Option Json) (output : String) :
    VResult :=
  match parse (strip_fences output) with
  | none => ⟨false, some "Invalid JSON", none⟩
  | some data =>
    match validation_error data with
    | some e => ⟨false, some e, none⟩
    | none => ⟨true, none, some data⟩

end ReviewPromptValidator

/-! ### Rules

Rules are passed around as dicts `{rule_id, name, category, type, intent,
params, risk_level, retrieval_tags}`; the fields the verified core reads are
modelled as a structure.  `params` is an insertion-ordered dict whose values
in this repository are strings or numbers. -/

/-- A `params` value: a Python string or number (`category`/`risk_level` style
metadata never reaches `params` in this repository). -/
inductive PValue where
  | pstr (s : String) : PValue
  | pint (n : ℤ) : PValue
deriving DecidableEq, Repr

/-- Python truthiness of a `params` value (`if not param_value: continue`). -/
def PValue.truthy : PValue → Bool
  | .pstr s => s != ""
  | .pint n => n != 0

/-- `str(param_value)` for values that pass `isinstance(v, (int, float))`. -/
def PValue.pyStr : PValue → String
  | .pstr s => s
  | .pint n => toString n

structure Rule where
  rule_id : String
  name : String
  rtype : String
  intent : String
  params : List (String × PValue)
  retrieval_tags : List String
deriving DecidableEq, Repr

/-! ### Review executor (`backend/execution/executor.py`)

`ReviewResult` is a Python dataclass whose fields hold whatever the dynamic
code assigns; on the validated path (lines 284-292) the field values come
straight out of the parsed JSON, so the fields are modelled as `Json`. -/

inductive ReviewStatus where
  | PENDING | RUNNING | COMPLETED | FAILED
deriving DecidableEq, Repr

structure ReviewResult where
  rule_id : Json
  rule_name : Json
  status : Json
  reason : Json
  evidence : Json
  confidence : Json
  suggestion : Option Json
  error : Option String

structure ReviewTask where
  review_id : String
  doc_id : String
  rule_ids : List String
  status : ReviewStatus
  results : List ReviewResult
  error : Option String

/-- One `(review_id, completed, total, message)` invocation of the progress
callback (lines 194-200). -/
structure ProgressCall where
  review_id : String
  completed : ℕ
  total : ℕ
  message : String

namespace ReviewExecutor

/-- Lines 270-292 of `_execute_rule_review`: turn the validator's output into
the `ReviewResult` that is appended to the task. -/
def rule_review_result (rule_id rule_name : String) (validated : VResult) :
    ReviewResult :=
  if validated.valid = false then
    { rule_id := .str rule_id
      rule_name := .str rule_name
      status := .str "FAILED"
      reason := .str ("LLM 输出解析失败: " ++ (validated.error.getD "None"))
      evidence := .arr []
      confidence := .num (4/5)
      suggestion := none
      error := validated.error }
  else
    let data := validated.data.getD .null
    { rule_id := data.get "rule_id" (.str rule_id)
      rule_name := data.get "rule_name" (.str rule_name)
      status := data.get "status" (.str "MISSING")
      reason := data.get "reason" (.str "")
      evidence := data.get "evidence" (.arr [])
      confidence := data.get "confidence" (.num (4/5))
      suggestion := data.pyIndex "suggestion"
      error := none }

/-- Lines 202-211: the `ReviewResult` recorded when processing one rule raises
exception text `e`. -/
def rule_error_result (rule : Rule) (e : String) : ReviewResult :=
  { rule_id := .str rule.rule_id
    rule_name := .str rule.name
    status := .str "FAILED"
    reason := .str ("规则审查失败: " ++ e)
    evidence := .arr []
    confidence := .num (4/5)
    suggestion := none
    error := some e }

/-- The progress message `f"已完成 {completed}/{total} 条规则审查"`. -/
def progress_message (completed total : ℕ) : String :=
  "已完成 " ++ toString completed ++ "/" ++ toString total ++ " 条规则审查"

/-- The per-rule loop of `execute_review` (lines 184-211).  `process` models
`_execute_rule_review` (which suspends at the retrieval and LLM calls):
`Except.error e` is an exception with text `e` escaping it.  The callback, when
non-null (`has_callback`), is modelled by recording its invocations. -/
def execute_loop (review_id : String) (total : ℕ)
    (process : Rule → Except String ReviewResult) (has_callback : Bool) :
    List Rule → ℕ → List ReviewResult × List ProgressCall
  | [], _ => ([], [])
  | r :: rs, completed =>
    match process r with
    | .ok res =>
      let calls := if has_callback then
        [⟨review_id, completed + 1, total, progress_message (completed + 1) total⟩]
        else []
      let rest := execute_loop review_id total process has_callback rs (completed + 1)
      (res :: rest.1, calls ++ rest.2)
    | .error e =>
      let rest := execute_loop review_id total process has_callback rs completed
      (rule_error_result r e :: rest.1, rest.2)

/-- Lines 152-224 of `execute_review` for a task found in the task table.
Nothing outside the per-rule loop can raise in this model (the statements
there are assignments and `datetime.now()`), so the outer `except` branch
(lines 218-222) is unreachable and the task always ends `COMPLETED`. -/
def execute_review (task : ReviewTask) (rules : List Rule)
    (process : Rule → Except String ReviewResult) (has_callback : Bool) :
    ReviewTask × List ProgressCall :=
  let running := { task with status := .RUNNING }
  let looped := execute_loop task.review_id rules.length process has_callback rules 0
  ({ running with status := .COMPLETED, results := running.results ++ looped.1 },
   looped.2)

end ReviewExecutor

/-! ### In-memory vector store (`backend/vector/vector_store.py`)

`self.documents` is a Python dict `chunk_id → VectorDocument`, modelled as an
insertion-ordered association list with unique keys; replacing a value keeps
its position, deleting then re-adding moves it to the end, exactly as in
CPython.  Similarity scores are computed by `numpy` in floating point; the
score function is passed in as a parameter `sim` (the claims about `search`
hold for every score function). -/

/-- `VectorDocument` (the `metadata` dict is carried around unread by the
verified operations and omitted). -/
structure VectorDocument where
  chunk_id : String
  doc_id : String
  text : String
  embedding : Option (List ℚ)
  page : ℤ
  clause_hint : String
deriving DecidableEq, Repr

/-- `SearchResult` (without the unread `metadata`). -/
structure SearchResult where
  chunk_id : String
  doc_id : String
  text : String
  page : ℤ
  clause_hint : String
  score : ℚ
deriving DecidableEq, Repr

/-- CPython dict assignment `d[k] = v`: replace in place, else append. -/
def dictInsert {α : Type} (d : List (String × α)) (k : String) (v : α) :
    List (String × α) :=
  if (d.lookup k).isSome then
    d.map fun p => if p.1 = k then (k, v) else p
  else d ++ [(k, v)]

/-- CPython `del d[k]`. -/
def dictRemove {α : Type} (d : List (String × α)) (k : String) :
    List (String × α) :=
  d.filter fun p => p.1 != k

structure InMemoryVectorStore where
  documents : List (String × VectorDocument)
  embeddings : List (List ℚ)
  chunk_ids : List String

namespace InMemoryVectorStore

/-- `__init__` (lines 64-67). -/
def empty : InMemoryVectorStore := ⟨[], [], []⟩

/-- `_rebuild_embeddings` (lines 95-103): recompute `embeddings` and
`chunk_ids` from the documents dict, keeping only documents with an
embedding. -/
def rebuild_embeddings (documents : List (String × VectorDocument)) :
    List (List ℚ) × List String :=
  (documents.filterMap fun p => p.2.embedding,
   (documents.filter fun p => p.2.embedding.isSome).map (·.1))

/-- The loop body of `add_documents` (lines 80-88), acting on the
`(documents, chunk_ids, count)` state. -/
def add_step (st : List (String × VectorDocument) × List String × ℕ)
    (doc : VectorDocument) :
    List (String × VectorDocument) × List String × ℕ :=
  match doc.embedding with
  | none => st
  | some _ =>
    let cids := if (st.1.lookup doc.chunk_id).isSome then st.2.1
                else st.2.1 ++ [doc.chunk_id]
    (dictInsert st.1 doc.chunk_id doc, cids, st.2.2 + 1)

/-- `add_documents` (lines 69-93): skip records without an embedding, assign
into the dict (counting every stored record), then rebuild. -/
def add_documents (s : InMemoryVectorStore) (docs : List VectorDocument) :
    InMemoryVectorStore × ℕ :=
  let st := docs.foldl add_step (s.documents, s.chunk_ids, 0)
  let rebuilt := rebuild_embeddings st.1
  (⟨st.1, rebuilt.1, rebuilt.2⟩, st.2.2)

/-- `delete_document` (lines 191-205). -/
def delete_document (s : InMemoryVectorStore) (chunk_id : String) :
    InMemoryVectorStore × Bool :=
  if (s.documents.lookup chunk_id).isSome then
    let dm := dictRemove s.documents chunk_id
    let rebuilt := rebuild_embeddings dm
    (⟨dm, rebuilt.1, rebuilt.2⟩, true)
  else (s, false)

/-- Python truthiness of an optional filter string (`if doc_filter and ...`):
`None` and `""` deactivate the filter. -/
def filter_active : Option String → Bool
  | none => false
  | some f => f != ""

/-- Lines 130-151: the unsorted, filtered candidate `results` list.
`sim query e` models the `numpy` cosine score of stored embedding `e` against
the query (line 128 / lines 158-177). -/
def search_candidates (s : InMemoryVectorStore)
    (sim : List ℚ → List ℚ → ℚ) (query_embedding : List ℚ)
    (doc_filter clause_filter : Option String) : List SearchResult :=
  let scores := s.embeddings.map (sim query_embedding)
  (s.chunk_ids.zip scores).filterMap fun cs =>
    match s.documents.lookup cs.1 with
    | none => none
    | some doc =>
      if filter_active doc_filter && doc.doc_id != (doc_filter.getD "") then none
      else if filter_active clause_filter
              && doc.clause_hint != (clause_filter.getD "") then none
      else some ⟨doc.chunk_id, doc.doc_id, doc.text, doc.page, doc.clause_hint,
                 cs.2⟩

/-- `search` (lines 105-156): score, filter, stable-sort by descending score
(Python's stable `list.sort(reverse=True)` = stable merge sort with
`b.score ≤ a.score`), truncate to `top_k`. -/
def search (s : InMemoryVectorStore) (sim : List ℚ → List ℚ → ℚ)
    (query_embedding : List ℚ) (top_k : ℕ)
    (doc_filter clause_filter : Option String) : List SearchResult :=
  if s.embeddings.isEmpty then []
  else
    let results := search_candidates s sim query_embedding doc_filter clause_filter
    (results.mergeSort fun a b => decide (b.score ≤ a.score)).take top_k

end InMemoryVectorStore

/-! ### Document chunker (`backend/document/chunker.py`) -/

/-- A CJK unified ideograph (`[一-鿿]`). -/
def isCJK (c : Char) : Bool := 0x4e00 ≤ c.toNat && c.toNat ≤ 0x9fff

/-- A regex word character (`\w`), for the character ranges this pipeline
processes: ASCII alphanumerics, underscore and CJK ideographs. -/
def wordChar (c : Char) : Bool := c.isAlphanum || c == '_' || isCJK c

/-- The maximal-`\w`-run scanner behind both `re.findall(r'\b[a-zA-Z]+\b', ·)`
(chunker line 491) and `re.findall(r'[\w一-鿿]+', ·)` (query builder
line 440): `current` accumulates the run in reverse. -/
def wordRunsGo (current : List Char) : List Char → List (List Char)
  | [] => if current.isEmpty then [] else [current.reverse]
  | c :: cs =>
    if wordChar c then wordRunsGo (c :: current) cs
    else if current.isEmpty then wordRunsGo [] cs
    else current.reverse :: wordRunsGo [] cs

/-- The maximal runs of word characters of a string, in order. -/
def wordRuns (s : String) : List (List Char) := wordRunsGo [] s.toList

namespace DocumentChunker

/-- `_estimate_tokens` (lines 479-493): CJK character count plus
`\b[a-zA-Z]+\b` word count.  A `\b`-delimited ASCII word is exactly a maximal
`\w`-run that is entirely alphabetic. -/
def estimate_tokens (s : String) : ℕ :=
  s.toList.countP isCJK + (wordRuns s).countP (·.all Char.isAlpha)

/-- The `CLAUSE_KEYWORDS` table (lines 16-35). -/
def CLAUSE_KEYWORDS : List (String × List String) :=
  [("payment", ["付款", "支付", "结算", "费用", "金额", "价款", "租金", "payment", "pay"]),
   ("liability", ["责任", "义务", "承担", "赔偿", "损失", "liability", "responsibility"]),
   ("confidentiality", ["保密", "机密", "秘密", "泄露", "confidential", "secret"]),
   ("termination", ["终止", "解除", "到期", "期满", "termination", "end", "expire"]),
   ("intellectual_property", ["知识产权", "专利", "商标", "著作权", "版权", "intellectual", "property", "patent", "copyright"]),
   ("dispute_resolution", ["争议", "纠纷", "仲裁", "诉讼", "dispute", "arbitration", "litigation"]),
   ("force_majeure", ["不可抗力", "天灾", "force", "majeure"]),
   ("governing_law", ["法律", "管辖", "适用法律", "governing", "law", "jurisdiction"]),
   ("delivery", ["交付", "运送", "发货", "delivery", "ship"]),
   ("quality", ["质量", "标准", "规格", "quality", "standard"]),
   ("warranty", ["质保", "保修", "保证", "warranty", "guarantee"]),
   ("indemnification", ["补偿", "赔付", "indemnif"]),
   ("limitation_of_liability", ["责任限制", "免责", "limitation"]),
   ("amendment", ["修改", "修订", "变更", "amendment", "modify"]),
   ("severability", ["可分割", "独立性", "severability"]),
   ("entire_agreement", ["完整协议", "全部协议", "取代", "entire", "agreement"]),
   ("assignment", ["转让", "让与", "assignment"]),
   ("notices", ["通知", "告知", "notice"])]

/-- `_identify_clause_type` (lines 451-477): per-type keyword-hit counts;
Python `max(..., key=...)` keeps the first maximal entry of the score dict,
whose insertion order is the table order restricted to positive scores. -/
def identify_clause_type (text : String) : String :=
  let lower := pyLower text
  let scores := CLAUSE_KEYWORDS.filterMap fun ck =>
    let score := ck.2.countP fun kw => pySubstr (pyLower kw) lower
    if score > 0 then some (ck.1, score) else none
  match scores with
  | [] => "unknown"
  | first :: rest =>
    (rest.foldl (fun best p => if best.2 < p.2 then p else best) first).1

/-- The sentence delimiters of `re.split(r'([。！？.!?])', ·)` (line 335). -/
def isSentenceDelim (c : Char) : Bool :=
  c == '。' || c == '！' || c == '？' || c == '.' || c == '!' || c == '?'

/-- Lines 335-340: split on sentence delimiters, re-attaching each delimiter
to the text before it; the trailing delimiter-free remainder (possibly empty)
is kept, as in the Python recombination of `re.split` with a capture group. -/
def sentence_split_go (acc : List Char) : List Char → List String
  | [] => [String.mk acc]
  | c :: cs =>
    if isSentenceDelim c then String.mk (acc ++ [c]) :: sentence_split_go [] cs
    else sentence_split_go (acc ++ [c]) cs

def sentence_split (s : String) : List String := sentence_split_go [] s.toList

/-- The sentence-packing loop of `_split_long_paragraph` (lines 342-358). -/
def split_loop (max_tokens : ℕ) :
    List String → List String → String → List String
  | [], chunks, current => if current != "" then chunks ++ [current] else chunks
  | sentence :: rest, chunks, current =>
    if pyStrip sentence == "" then split_loop max_tokens rest chunks current
    else
      let test := current ++ sentence
      if estimate_tokens test ≤ max_tokens then
        split_loop max_tokens rest chunks test
      else if current != "" then
        split_loop max_tokens rest (chunks ++ [current]) sentence
      else
        split_loop max_tokens rest chunks sentence

/-- `_split_long_paragraph` (lines 319-360). -/
def split_long_paragraph (max_tokens : ℕ) (paragraph : String) : List String :=
  split_loop max_tokens (sentence_split paragraph) [] ""

end DocumentChunker

/-- `BoundingBox` coordinates (floats in the source, modelled as `ℚ`; the
chunker reads only `y1` and `x1`). -/
structure BoundingBox where
  x1 : ℚ
  y1 : ℚ
  x2 : ℚ
  y2 : ℚ
deriving DecidableEq, Repr

/-- A parsed `TextBlock` (font metadata only feeds the omitted chunk
`metadata` dict). -/
structure TextBlock where
  text : String
  bbox : BoundingBox
deriving DecidableEq, Repr

/-- A parsed `PDFPage` as consumed by the chunker. -/
structure PDFPage where
  page_number : ℤ
  text_blocks : List TextBlock
deriving DecidableEq, Repr

/-- A `Chunk`.  `bbox`, `metadata` and the wall-clock `created_at` are not
read by any verified claim and are omitted; `from_split` is specification
instrumentation marking the sub-chunks produced by `_split_long_paragraph`
(it changes no observable field). -/
structure Chunk where
  chunk_id : String
  doc_id : String
  page : ℤ
  text : String
  clause_hint : String
  char_start : ℕ
  char_end : ℕ
  token_count : ℕ
  from_split : Bool
deriving DecidableEq, Repr

namespace DocumentChunker

/-- The chunker configuration (`__init__`, lines 72-91; `overlap_sentences`
is stored but never read by `chunk`). -/
structure Config where
  min_chunk_size : ℕ
  max_chunk_size : ℕ
  target_chunk_size : ℕ
  overlap_sentences : ℕ
deriving DecidableEq, Repr

/-- `_create_chunk` (lines 362-413), with the `from_split` instrumentation
flag. -/
def create_chunk (doc_id : String) (page_number : ℤ) (chunk_index : ℕ)
    (text : String) (char_start : ℕ) (from_split : Bool) : Chunk :=
  { chunk_id := doc_id ++ "_p" ++ toString page_number ++ "_c" ++ toString chunk_index
    doc_id := doc_id
    page := page_number
    text := text
    clause_hint := identify_clause_type text
    char_start := char_start
    char_end := char_start + text.length
    token_count := estimate_tokens text
    from_split := from_split }

/-- The paragraph-grouping state of `_extract_paragraphs`. -/
structure ParaState where
  paragraphs : List String
  current : String
  prev_y : Option ℚ

/-- Lines 165-171: a vertical jump of more than 25 points starts a new
paragraph. -/
def is_new_paragraph (y : ℚ) (prev_y : Option ℚ) : Bool :=
  match prev_y with
  | some py => decide (25 < pyAbs (y - py))
  | none => false

/-- The per-block body of `_extract_paragraphs` (lines 160-197): skip
empty-after-strip blocks (without updating `prev_y`), flush the paragraph on a
vertical jump, append the block text. -/
def para_group_step (st : ParaState) (block : TextBlock) : ParaState :=
  let text := pyStrip block.text
  if text == "" then st
  else
    let is_new := is_new_paragraph block.bbox.y1 st.prev_y
    let st := if is_new && st.current != "" then
        ⟨st.paragraphs ++ [st.current], "", st.prev_y⟩
      else st
    let cur := if st.current != "" then st.current ++ " " ++ text
               else st.current ++ text
    ⟨st.paragraphs, cur, some block.bbox.y1⟩

/-- `_extract_paragraphs` (lines 131-203), keeping the paragraph texts (the
per-paragraph `bboxes`/`metadata` only feed omitted chunk fields).  Blocks are
stably sorted by `(bbox.y1, bbox.x1)`. -/
def extract_paragraphs (page : PDFPage) : List String :=
  let sorted_blocks := page.text_blocks.mergeSort fun a b =>
    decide (a.bbox.y1 < b.bbox.y1) ||
      (a.bbox.y1 == b.bbox.y1 && decide (a.bbox.x1 ≤ b.bbox.x1))
  let final := sorted_blocks.foldl para_group_step ⟨[], "", none⟩
  if final.current != "" then final.paragraphs ++ [final.current]
  else final.paragraphs

/-- The chunk-packing state of `_create_chunks_from_paragraphs`. -/
structure ChunkState where
  chunks : List Chunk
  current : String
  char_offset : ℕ

/-- Lines 240-252 / 284-295 / 304-315: flush the accumulating chunk (if any)
as a non-split chunk and advance the character offset.  The resulting
`current` is always `""`. -/
def flush_chunk (doc_id : String) (page_number : ℤ) (chunk_index : ℕ)
    (st : ChunkState) : ChunkState :=
  if st.current != "" then
    ⟨st.chunks ++ [create_chunk doc_id page_number
        (st.chunks.length + chunk_index) st.current st.char_offset false],
     "", st.char_offset + st.current.length⟩
  else st

/-- The per-paragraph body of `_create_chunks_from_paragraphs`
(lines 234-302). -/
def para_step (cfg : Config) (doc_id : String) (page_number : ℤ)
    (chunk_index : ℕ) (st : ChunkState) (para : String) : ChunkState :=
  let para_tokens := estimate_tokens para
  if para_tokens > cfg.max_chunk_size then
    let st := flush_chunk doc_id page_number chunk_index st
    (split_long_paragraph cfg.max_chunk_size para).foldl
      (fun (st : ChunkState) sub =>
        ⟨st.chunks ++ [create_chunk doc_id page_number
            (st.chunks.length + chunk_index) sub st.char_offset true],
         st.current, st.char_offset + sub.length⟩)
      st
  else
    if estimate_tokens st.current + para_tokens ≤ cfg.target_chunk_size then
      ⟨st.chunks,
       if st.current != "" then st.current ++ "\n\n" ++ para
       else st.current ++ para,
       st.char_offset⟩
    else
      let st := flush_chunk doc_id page_number chunk_index st
      ⟨st.chunks, para, st.char_offset⟩

/-- `_create_chunks_from_paragraphs` (lines 205-317): greedy packing of
paragraphs, flushing at `target_chunk_size`, sentence-splitting paragraphs
over `max_chunk_size`. -/
def create_chunks_from_paragraphs (cfg : Config) (paragraphs : List String)
    (doc_id : String) (page_number : ℤ) (chunk_index : ℕ)
    (global_char_offset : ℕ) : List Chunk × ℕ :=
  let final := flush_chunk doc_id page_number chunk_index
    (paragraphs.foldl (para_step cfg doc_id page_number chunk_index)
      ⟨[], "", global_char_offset⟩)
  (final.chunks, final.char_offset - global_char_offset)

/-- `chunk` (lines 93-129): segment every page, threading the global character
offset and chunk index. -/
def chunk (cfg : Config) (pages : List PDFPage) (doc_id : String) :
    List Chunk :=
  (pages.foldl
    (fun (st : List Chunk × ℕ × ℕ) page =>
      let paragraphs := extract_paragraphs page
      let pr := create_chunks_from_paragraphs cfg paragraphs doc_id
        page.page_number st.2.2 st.2.1
      (st.1 ++ pr.1, st.2.1 + pr.2, st.2.2 + pr.1.length))
    ([], 0, 0)).1

end DocumentChunker

/-! ### Embedding provider and pipeline (`backend/document/embedding.py`) -/

namespace OpenAIEmbeddingProvider

/-- Lines 140-144 of `_mock_encode`: the pre-normalization vector; entry `i`
is `hash_bytes[i % len(hash_bytes)] / 255.0`.  `hashBytes` models
`hashlib.sha256(text.encode()).digest()` (always 32 bytes, each `< 256`). -/
def mock_raw (dimension : ℕ) (hash_bytes : List ℕ) : List ℚ :=
  (List.range dimension).map fun i =>
    ((hash_bytes.getD (i % hash_bytes.length) 0 : ℚ) / 255)

/-- The squared L2 norm of the rational vector, read in `ℝ`. -/
def sumSq (v : List ℚ) : ℝ := (v.map fun x : ℚ => ((x : ℝ))^2).sum

/-- Lines 146-149 of `_mock_encode`: `numpy` L2 normalization, exact-real
semantics (the one floating-point step of the claims; `norm > 0` iff the sum
of squares is positive). -/
noncomputable def mock_normalize (v : List ℚ) : List ℝ :=
  if 0 < sumSq v then
    v.map fun x : ℚ => (x : ℝ) / Real.sqrt (sumSq v)
  else v.map fun x : ℚ => (x : ℝ)

/-- `_mock_encode` (lines 121-153): one deterministic pseudo-random,
normalized vector per input text. -/
noncomputable def mock_encode (dimension : ℕ) (hashBytes : String → List ℕ)
    (texts : List String) : List (List ℝ) :=
  texts.map fun text => mock_normalize (mock_raw dimension (hashBytes text))

end OpenAIEmbeddingProvider

/-- `EmbeddingResult` (lines 208-215).  The wall-clock `processing_time` is
omitted; `all_embeddings` mirrors the local accumulator of `process_chunks`
(lines 266-295), recording the zero-vector degradation of failed batches. -/
structure EmbeddingResult where
  chunks : List Chunk
  vectors : List VectorDocument
  total_processed : ℕ
  failed_count : ℕ
  all_embeddings : List (List ℚ)

namespace EmbeddingPipeline

/-- The batch slices `texts[i:i+batch_size]` of the loop
`for i in range(0, len(texts), batch_size)` (line 267). -/
def batches {α : Type} (batch_size : ℕ) (l : List α) : List (List α) :=
  if h : batch_size = 0 ∨ l.isEmpty then []
  else l.take batch_size :: batches batch_size (l.drop batch_size)
termination_by l.length
decreasing_by
  simp only [not_or, List.isEmpty_iff] at h
  have hl : l ≠ [] := h.2
  have h0 : 0 < l.length := List.length_pos.mpr hl
  simp only [List.length_drop]
  omega

theorem batches_nil {α : Type} (bs : ℕ) : batches (α := α) bs [] = [] := by
  rw [batches]; simp

theorem batches_cons {α : Type} (bs : ℕ) (l : List α) (h0 : bs ≠ 0)
    (hl : l ≠ []) :
    batches bs l = l.take bs :: batches bs (l.drop bs) := by
  rw [batches]
  simp [h0, hl]

/-- Line 279-288: the `VectorDocument` built for one chunk/embedding pair. -/
def make_vector_doc (c : Chunk) (e : List ℚ) : VectorDocument :=
  { chunk_id := c.chunk_id
    doc_id := c.doc_id
    text := c.text
    embedding := some e
    page := c.page
    clause_hint := c.clause_hint }

/-- The per-batch step of `process_chunks` (lines 267-295), acting on the
`(vectors, failed_count, all_embeddings)` state.  `encode` models
`self.provider.encode` (`Except.error` = an exception from the provider),
`dim` the provider's `dimension`. -/
def process_batch (dim : ℕ)
    (encode : List String → Except String (List (List ℚ)))
    (st : List VectorDocument × ℕ × List (List ℚ)) (batch : List Chunk) :
    List VectorDocument × ℕ × List (List ℚ) :=
  match encode (batch.map (·.text)) with
  | .ok embs =>
    (st.1 ++ (batch.zip embs).map (fun p => make_vector_doc p.1 p.2),
     st.2.1, st.2.2 ++ embs)
  | .error _ =>
    (st.1, st.2.1 + (batch.map (·.text)).length,
     st.2.2 ++ List.replicate batch.length (List.replicate dim 0))

/-- `process_chunks` (lines 239-309): encode batch by batch, degrade failed
batches, then `add_documents` the collected vectors (when non-empty) into the
store.  Total by construction: a batch failure never aborts the call. -/
def process_chunks (dim : ℕ)
    (encode : List String → Except String (List (List ℚ)))
    (store : InMemoryVectorStore) (chunks : List Chunk) (batch_size : ℕ) :
    EmbeddingResult × InMemoryVectorStore :=
  let st := (batches batch_size chunks).foldl (process_batch dim encode) ([], 0, [])
  let store' := if st.1.isEmpty then store else (store.add_documents st.1).1
  (⟨chunks, st.1, chunks.length, st.2.1, st.2.2⟩, store')

end EmbeddingPipeline

/-! ### Rule-aware query builder (`backend/execution/query_builder.py`) -/

/-- `SearchQuery` (lines 11-31).  `tags` is a Python `set`, modelled as a
`Finset`; `weight` is an exact rational standing for the float literal. -/
structure SearchQuery where
  query_id : String
  text : String
  keywords : List String
  tags : Finset String
  rules : List String
  query_type : String
  weight : ℚ

/-- `QueryBuildResult` (lines 34-48). -/
structure QueryBuildResult where
  queries : List SearchQuery
  rules_count : ℕ
  unique_keywords : ℕ
  unique_tags : ℕ

namespace RuleAwareQueryBuilder

/-- The builder configuration (`__init__`, lines 90-106). -/
structure Config where
  max_queries_per_rule : ℕ
  min_keyword_length : ℕ
  max_query_length : ℕ
deriving DecidableEq, Repr

/-- `STOP_WORDS` (lines 55-60). -/
def STOP_WORDS : List String :=
  ["的", "了", "是", "在", "和", "与", "或", "但", "而", "等",
   "应", "需", "要", "可以", "能够", "应该", "必须",
   "this", "that", "the", "a", "an", "and", "or", "but",
   "shall", "should", "must", "may", "can", "will"]

/-- The order-preserving first-occurrence deduplication loop
(lines 450-455). -/
def dedup_first (seen : List String) : List String → List String
  | [] => []
  | x :: xs =>
    if seen.contains x then dedup_first seen xs
    else x :: dedup_first (x :: seen) xs

/-- `_extract_keywords` (lines 426-457): `re.findall(r'[\w一-鿿]+', text)`,
drop tokens shorter than `min_keyword_length` or in the stop-word set,
deduplicate keeping first occurrences. -/
def extract_keywords (min_keyword_length : ℕ) (text : String) : List String :=
  if text == "" then []
  else
    let words := (wordRuns text).map String.mk
    let keywords := words.filter fun w =>
      min_keyword_length ≤ w.length && !(STOP_WORDS.contains w)
    dedup_first [] keywords

/-- `_build_queries_from_intent` (lines 195-244). -/
def build_queries_from_intent (cfg : Config) (rule_id intent rule_type : String)
    (retrieval_tags : List String) : List SearchQuery :=
  if intent == "" then []
  else
    let keywords := extract_keywords cfg.min_keyword_length intent
    let query_text :=
      if intent.length < 10 then
        if rule_type == "prohibition" then "禁止" ++ intent
        else if rule_type == "requirement" then "应当" ++ intent
        else intent
      else intent
    let semantic : SearchQuery :=
      ⟨rule_id ++ "_intent", strTake query_text cfg.max_query_length, keywords,
       retrieval_tags.toFinset, [rule_id], "semantic", 1⟩
    if keywords.isEmpty then [semantic]
    else
      [semantic,
       ⟨rule_id ++ "_keywords", " ".intercalate (keywords.take 5), keywords,
        retrieval_tags.toFinset, [rule_id], "keyword", 4/5⟩]

/-- `_build_queries_from_params` (lines 246-290): one keyword query per
truthy string-or-number parameter, with `numeric_constraint` rewriting. -/
def build_queries_from_params (cfg : Config) (rule_id : String)
    (params : List (String × PValue)) (rule_type : String)
    (retrieval_tags : List String) : List SearchQuery :=
  params.foldl
    (fun acc p =>
      if !p.2.truthy then acc
      else
        let sval := p.2.pyStr
        let keywords := extract_keywords cfg.min_keyword_length sval
        let query_text :=
          if rule_type == "numeric_constraint" then
            if pySubstr "threshold" p.1 || pySubstr "limit" p.1 then sval ++ "以内"
            else if pySubstr "min" p.1 || pySubstr "lower" p.1 then "不少于" ++ sval
            else sval
          else sval
        acc ++ [⟨rule_id ++ "_param_" ++ p.1, strTake query_text cfg.max_query_length,
                keywords ++ [p.1], retrieval_tags.toFinset, [rule_id], "keyword",
                9/10⟩])
    []

/-- `RULE_TYPE_TEMPLATES` (lines 63-88). -/
def RULE_TYPE_TEMPLATES : List (String × List String) :=
  [("numeric_constraint",
    ["\x7b参数名称\x7d \x7b数值\x7d",
     "\x7b参数名称\x7d 不超过 \x7b数值\x7d",
     "\x7b参数名称\x7d 少于 \x7b数值\x7d",
     "\x7b参数名称\x7d 超过 \x7b数值\x7d"]),
   ("text_contains",
    ["\x7b关键词\x7d", "包含 \x7b关键词\x7d", "约定 \x7b关键词\x7d", "规定 \x7b关键词\x7d"]),
   ("prohibition",
    ["禁止 \x7b行为\x7d", "不得 \x7b行为\x7d", "不允许 \x7b行为\x7d", "不能 \x7b行为\x7d"]),
   ("requirement",
    ["\x7b义务\x7d", "应当 \x7b义务\x7d", "必须 \x7b义务\x7d", "有义务 \x7b义务\x7d"])]

/-- The first string parameter value, default `d`
(`next((v for v in params.values() if isinstance(v, str)), d)`). -/
def first_str_param (params : List (String × PValue)) (d : String) : String :=
  match params.filterMap (fun p => match p.2 with | .pstr s => some s | _ => none) with
  | [] => d
  | s :: _ => s

/-- The first numeric parameter value as a string, default `"指定值"`. -/
def first_num_param (params : List (String × PValue)) : String :=
  match params.filterMap (fun p => match p.2 with | .pint n => some n | _ => none) with
  | [] => "指定值"
  | n :: _ => toString n

/-- Lines 307-347 of `_build_queries_from_templates`: fill one template. -/
def fill_template (params : List (String × PValue)) (template : String) : String :=
  let qt := params.foldl
    (fun qt p =>
      match p.2 with
      | .pstr s =>
        let placeholder := "\x7b" ++ p.1 ++ "\x7d"
        if pySubstr placeholder template then qt.replace placeholder s else qt
      | _ => qt)
    template
  let qt := if pySubstr "\x7b参数名称\x7d" qt && !params.isEmpty then
      qt.replace "\x7b参数名称\x7d" (params.map (·.1)).head! else qt
  let qt := if pySubstr "\x7b数值\x7d" qt then
      qt.replace "\x7b数值\x7d" (first_num_param params) else qt
  let qt := if pySubstr "\x7b关键词\x7d" qt then
      qt.replace "\x7b关键词\x7d" (first_str_param params "约定内容") else qt
  let qt := if pySubstr "\x7b行为\x7d" qt then
      qt.replace "\x7b行为\x7d" (first_str_param params "相关行为") else qt
  let qt := if pySubstr "\x7b义务\x7d" qt then
      qt.replace "\x7b义务\x7d" (first_str_param params "相关义务") else qt
  qt

/-- `_build_queries_from_templates` (lines 292-371): fill each template of the
rule type; templates with unresolved placeholders are skipped. -/
def build_queries_from_templates (cfg : Config) (rule_id rule_type : String)
    (params : List (String × PValue)) (retrieval_tags : List String) :
    List SearchQuery :=
  let templates := ((RULE_TYPE_TEMPLATES.lookup rule_type).getD [])
  templates.foldl
    (fun acc template =>
      let query_text := fill_template params template
      if pySubstr "\x7b" query_text then acc
      else
        let keywords := extract_keywords cfg.min_keyword_length query_text
        acc ++ [⟨rule_id ++ "_template_" ++ toString acc.length,
                strTake query_text cfg.max_query_length, keywords,
                retrieval_tags.toFinset, [rule_id], "hybrid", 7/10⟩])
    []

/-- `_build_queries_for_rule` (lines 149-193): intent, parameter and template
queries in order, truncated to `max_queries_per_rule`. -/
def build_queries_for_rule (cfg : Config) (rule : Rule) : List SearchQuery :=
  let queries :=
    build_queries_from_intent cfg rule.rule_id rule.intent rule.rtype
      rule.retrieval_tags
    ++ build_queries_from_params cfg rule.rule_id rule.params rule.rtype
      rule.retrieval_tags
    ++ build_queries_from_templates cfg rule.rule_id rule.rtype rule.params
      rule.retrieval_tags
  if queries.length > cfg.max_queries_per_rule then
    queries.take cfg.max_queries_per_rule
  else queries

/-- Lines 384-404 of `_build_combined_queries`: the keyword pool tallied from
every rule's intent and string parameters, in order. -/
def combined_keyword_pool (min_keyword_length : ℕ) (rules : List Rule) :
    List String :=
  rules.foldl
    (fun acc rule =>
      let acc := if rule.intent != "" then
          acc ++ extract_keywords min_keyword_length rule.intent else acc
      rule.params.foldl
        (fun acc p =>
          match p.2 with
          | .pstr s => acc ++ extract_keywords min_keyword_length s
          | _ => acc)
        acc)
    []

/-- `Counter(l).most_common (n)`: distinct elements in first-occurrence order,
stably sorted by descending count, truncated to `n`. -/
def most_common (n : ℕ) (l : List String) : List String :=
  ((dedup_first [] l).mergeSort fun a b => decide (l.count b ≤ l.count a)).take n

/-- `_build_combined_queries` (lines 373-424): one hybrid weight-0.6 query
over the ten most frequent pooled keywords, tagged with every rule id. -/
def build_combined_queries (min_keyword_length : ℕ) (rules : List Rule) :
    List SearchQuery :=
  if rules.length < 2 then []
  else
    let all_keywords := combined_keyword_pool min_keyword_length rules
    let all_tags := rules.foldl (fun acc r => acc ∪ r.retrieval_tags.toFinset) ∅
    let rule_ids := rules.map (·.rule_id)
    let top_keywords := most_common 10 all_keywords
    if top_keywords.isEmpty then []
    else
      [⟨"combined_" ++ toString rules.length ++ "rules",
        " ".intercalate top_keywords, top_keywords, all_tags, rule_ids,
        "hybrid", 3/5⟩]

/-- `build_queries` (lines 108-147): per-rule queries (whose keywords/tags are
tallied for the statistics), plus the optional cross-rule merge. -/
def build_queries (cfg : Config) (rules : List Rule) (combine_rules : Bool) :
    QueryBuildResult :=
  let per_rule := rules.foldl (fun acc r => acc ++ build_queries_for_rule cfg r) []
  let all_keywords := per_rule.foldl
    (fun (acc : Finset String) q => acc ∪ q.keywords.toFinset) ∅
  let all_tags := per_rule.foldl (fun (acc : Finset String) q => acc ∪ q.tags) ∅
  let all_queries :=
    if combine_rules && rules.length > 1 then
      per_rule ++ build_combined_queries cfg.min_keyword_length rules
    else per_rule
  ⟨all_queries, rules.length, all_keywords.card, all_tags.card⟩

end RuleAwareQueryBuilder

/-! ## Claims -/

/-! ### C1: the MISSING invariant at the executor -/

/-- An LLM output that the validator accepts: all required fields present,
`status = "MISSING"`, and a well-formed but *non-empty* `evidence` array. -/
def c1EvidenceItem : Json :=
  .obj [("chunk_id", .str "doc1_p1_c0"), ("page", .num 1), ("text", .str "付款相关条款")]

def c1Data : Json :=
  .obj [("rule_id", .str "payment_cycle_max_30"),
        ("status", .str "MISSING"),
        ("reason", .str "未找到付款周期相关条款"),
        ("evidence", .arr [c1EvidenceItem])]

def c1LlmText : String :=
  "\x7b\"rule_id\": \"payment_cycle_max_30\", \"status\": \"MISSING\", \"reason\": \"未找到付款周期相关条款\", \"evidence\": [\x7b\"chunk_id\": \"doc1_p1_c0\", \"page\": 1, \"text\": \"付款相关条款\"\x7d]\x7d"

/-- `json.loads` on the failing input. -/
def c1Parse : String → Option Json :=
  fun s => if s = c1LlmText then some c1Data else none

set_option maxRecDepth 8000

/-- C1: the claim "every `ReviewResult` appended by the Review Executor with
`status == "MISSING"` has empty `evidence`" fails on the code: the validator
(`review_prompt.py` lines 240-269) never checks the MISSING/evidence
combination, so `_execute_rule_review` (`executor.py` lines 282-292) appends a
`MISSING` result carrying non-empty evidence when the model returns one.  The
repository's own test (`tests/test_executor.py` lines 215-216) and the review
prompt's instructions require `evidence == []` for `MISSING`. -/
theorem c1_missing_result_with_nonempty_evidence :
    (ReviewPromptValidator.validate_prompt_output c1Parse c1LlmText).valid = true ∧
    (ReviewExecutor.rule_review_result "payment_cycle_max_30" "付款周期限制"
        (ReviewPromptValidator.validate_prompt_output c1Parse c1LlmText)).status
      = .str "MISSING" ∧
    (ReviewExecutor.rule_review_result "payment_cycle_max_30" "付款周期限制"
        (ReviewPromptValidator.validate_prompt_output c1Parse c1LlmText)).evidence
      ≠ .arr [] := by
  refine ⟨rfl, rfl, ?_⟩
  have h : (ReviewExecutor.rule_review_result "payment_cycle_max_30" "付款周期限制"
      (ReviewPromptValidator.validate_prompt_output c1Parse c1LlmText)).evidence
      = .arr [c1EvidenceItem] := rfl
  rw [h]
  intro hEq
  injection hEq with hList
  exact List.noConfusion hList

/-! ### C4 / C5: the per-rule loop of `execute_review` -/

namespace ReviewExecutor

/-- The results appended by the loop: one per rule, in order, with failed
rules turned into `FAILED` results. -/
theorem execute_loop_results (rid : String) (total : ℕ)
    (process : Rule → Except String ReviewResult) (hcb : Bool) :
    ∀ (rules : List Rule) (completed : ℕ),
      (execute_loop rid total process hcb rules completed).1 =
        rules.map fun r =>
          match process r with
          | .ok res => res
          | .error e => rule_error_result r e := by
  intro rules
  induction rules with
  | nil => intro completed; rfl
  | cons r rs ih =>
    intro completed
    simp only [execute_loop, List.map_cons]
    cases process r with
    | ok res => simp [ih]
    | error e => simp [ih]

/-- Whether processing a rule succeeded. -/
def process_ok (process : Rule → Except String ReviewResult) (r : Rule) : Bool :=
  match process r with
  | .ok _ => true
  | .error _ => false

/-- The callback invocations of the loop: one per *successful* rule, with
`completed` counting successes. -/
theorem execute_loop_calls (rid : String) (total : ℕ)
    (process : Rule → Except String ReviewResult) :
    ∀ (rules : List Rule) (completed : ℕ),
      (execute_loop rid total process true rules completed).2.length =
        rules.countP (process_ok process) ∧
      ∀ (k : ℕ), k < (execute_loop rid total process true rules completed).2.length →
        (execute_loop rid total process true rules completed).2[k]? =
          some ⟨rid, completed + k + 1, total, progress_message (completed + k + 1) total⟩ := by
  intro rules
  induction rules with
  | nil =>
    intro completed
    constructor
    · rfl
    · intro k hk
      exact absurd hk (by simp [execute_loop])
  | cons r rs ih =>
    intro completed
    cases hp : process r with
    | ok res =>
      have hcount : List.countP (process_ok process) (r :: rs)
          = List.countP (process_ok process) rs + 1 := by
        rw [List.countP_cons]
        simp [process_ok, hp]
      have hloop : execute_loop rid total process true (r :: rs) completed =
          (res :: (execute_loop rid total process true rs (completed + 1)).1,
           ⟨rid, completed + 1, total, progress_message (completed + 1) total⟩
             :: (execute_loop rid total process true rs (completed + 1)).2) := by
        simp [execute_loop, hp]
      constructor
      · rw [hloop, hcount]
        simpa using (ih (completed + 1)).1
      · intro k hk
        rw [hloop]
        match k with
        | 0 => simp
        | k + 1 =>
          rw [hloop] at hk
          have hk' : k < (execute_loop rid total process true rs (completed + 1)).2.length := by
            simpa using hk
          have hrec := (ih (completed + 1)).2 k hk'
          have hcons : (⟨rid, completed + 1, total, progress_message (completed + 1) total⟩
                :: (execute_loop rid total process true rs (completed + 1)).2)[k + 1]?
              = (execute_loop rid total process true rs (completed + 1)).2[k]? :=
            List.getElem?_cons_succ ..
          show (⟨rid, completed + 1, total, progress_message (completed + 1) total⟩
              :: (execute_loop rid total process true rs (completed + 1)).2)[k + 1]? = _
          rw [hcons, hrec]
          have h1 : completed + 1 + k + 1 = completed + (k + 1) + 1 := by omega
          rw [h1]
    | error e =>
      have hcount : List.countP (process_ok process) (r :: rs)
          = List.countP (process_ok process) rs := by
        rw [List.countP_cons]
        simp [process_ok, hp]
      have hloop : execute_loop rid total process true (r :: rs) completed =
          (rule_error_result r e :: (execute_loop rid total process true rs completed).1,
           (execute_loop rid total process true rs completed).2) := by
        simp [execute_loop, hp]
      constructor
      · rw [hloop, hcount]
        exact (ih completed).1
      · intro k hk
        rw [hloop] at hk ⊢
        exact (ih completed).2 k hk

end ReviewExecutor

/-- C4: for every execution of `execute_review`, a rule whose processing
raises yields exactly one `FAILED` result carrying the exception text, the
remaining rules are still processed (one result per rule, in order) and the
task ends `COMPLETED`; nothing inside the loop can make the task `FAILED`. -/
theorem c4_per_rule_failure_isolated (task : ReviewTask) (rules : List Rule)
    (process : Rule → Except String ReviewResult) (hcb : Bool) :
    (ReviewExecutor.execute_review task rules process hcb).1.status
      = ReviewStatus.COMPLETED ∧
    (ReviewExecutor.execute_review task rules process hcb).1.results
      = task.results ++ rules.map (fun r =>
          match process r with
          | .ok res => res
          | .error e => ReviewExecutor.rule_error_result r e) ∧
    ∀ (i : ℕ) (hi : i < rules.length) (e : String),
      process rules[i] = .error e →
        (ReviewExecutor.execute_review task rules process hcb).1.results[task.results.length + i]?
            = some (ReviewExecutor.rule_error_result rules[i] e) ∧
          (ReviewExecutor.rule_error_result rules[i] e).status = .str "FAILED" ∧
          (ReviewExecutor.rule_error_result rules[i] e).error = some e := by
  refine ⟨rfl, ?_, ?_⟩
  · show task.results ++ _ = _
    rw [ReviewExecutor.execute_loop_results]
  · intro i hi e hp
    refine ⟨?_, rfl, rfl⟩
    show (task.results ++ (ReviewExecutor.execute_loop task.review_id rules.length
        process hcb rules 0).1)[task.results.length + i]? = _
    rw [ReviewExecutor.execute_loop_results]
    rw [List.getElem?_append_right (by omega)]
    have hsub : task.results.length + i - task.results.length = i := by omega
    rw [hsub, List.getElem?_map]
    rw [List.getElem?_eq_getElem hi]
    simp [hp]

/-- Witness for C4: a two-rule run where the second rule raises `"boom"`. -/
def c4Task : ReviewTask := ⟨"review_doc_x", "doc_x", ["A", "B"], .PENDING, [], none⟩

def c4RuleA : Rule := ⟨"A", "规则A", "requirement", "应当包含保密条款", [], []⟩

def c4RuleB : Rule := ⟨"B", "规则B", "prohibition", "禁止转让", [], []⟩

def c4OkResult : ReviewResult :=
  ⟨.str "A", .str "规则A", .str "PASS", .str "ok", .arr [], .num (9/10), none, none⟩

def c4Process : Rule → Except String ReviewResult :=
  fun r => if r.rule_id = "A" then .ok c4OkResult else .error "boom"

theorem c4_witness :
    (ReviewExecutor.execute_review c4Task [c4RuleA, c4RuleB] c4Process true).1.status
      = ReviewStatus.COMPLETED ∧
    (ReviewExecutor.execute_review c4Task [c4RuleA, c4RuleB] c4Process true).1.results[1]?
      = some (ReviewExecutor.rule_error_result c4RuleB "boom") := by
  have h := c4_per_rule_failure_isolated c4Task [c4RuleA, c4RuleB] c4Process true
  refine ⟨h.1, ?_⟩
  have := (h.2.2 1 (by decide) "boom" rfl).1
  simpa using this

/-- C5 counterexample: with a non-null callback and one rule whose processing
raises, the callback is never invoked — not once per rule as claimed. -/
def c5Task : ReviewTask := ⟨"review_doc_001", "doc_001", ["R1"], .PENDING, [], none⟩

def c5Rule : Rule := ⟨"R1", "规则一", "requirement", "合同应当包含保密条款", [], []⟩

theorem c5_no_callback_for_failed_rule :
    ([c5Rule].length = 1) ∧
    (ReviewExecutor.execute_review c5Task [c5Rule]
        (fun _ => .error "检索服务不可用") true).2 = [] := ⟨rfl, rfl⟩

/-- C5 (amended): with a non-null progress callback, the callback is invoked
exactly once after each *successfully processed* rule (failed rules trigger no
invocation), the `k`-th invocation carrying
`(review_id, k+1, total, message)` where `completed = k+1` counts successes. -/
theorem c5_callback_per_successful_rule (task : ReviewTask) (rules : List Rule)
    (process : Rule → Except String ReviewResult) :
    (ReviewExecutor.execute_review task rules process true).2.length
      = rules.countP (ReviewExecutor.process_ok process) ∧
    ∀ (k : ℕ), k < (ReviewExecutor.execute_review task rules process true).2.length →
      (ReviewExecutor.execute_review task rules process true).2[k]? =
        some ⟨task.review_id, k + 1, rules.length,
              ReviewExecutor.progress_message (k + 1) rules.length⟩ := by
  have h := ReviewExecutor.execute_loop_calls task.review_id rules.length process rules 0
  refine ⟨h.1, ?_⟩
  intro k hk
  have := h.2 k hk
  simpa using this

/-- Witness for C5 (amended): two rules, the first failing, the second
succeeding — exactly one invocation, with `completed = 1` and `total = 2`. -/
def c5wProcess : Rule → Except String ReviewResult :=
  fun r => if r.rule_id = "A" then .error "boom" else .ok c4OkResult

theorem c5_callback_witness :
    (ReviewExecutor.execute_review c4Task [c4RuleA, c4RuleB] c5wProcess true).2.length = 1 ∧
    (ReviewExecutor.execute_review c4Task [c4RuleA, c4RuleB] c5wProcess true).2[0]?
      = some ⟨"review_doc_x", 1, 2, ReviewExecutor.progress_message 1 2⟩ := by
  have h := c5_callback_per_successful_rule c4Task [c4RuleA, c4RuleB] c5wProcess
  have hlen : (ReviewExecutor.execute_review c4Task [c4RuleA, c4RuleB] c5wProcess true).2.length = 1 := by
    rw [h.1]; rfl
  refine ⟨hlen, ?_⟩
  have := h.2 0 (by rw [hlen]; decide)
  simpa using this

/-! ### C3 / C10: vector store lemmas -/

namespace InMemoryVectorStore

theorem lookup_mem {β : Type} (k : String) (v : β) :
    ∀ l : List (String × β), l.lookup k = some v → (k, v) ∈ l := by
  intro l
  induction l with
  | nil => intro h; exact absurd h (by simp [List.lookup])
  | cons p ps ih =>
    intro h
    rw [List.lookup] at h
    by_cases hk : k == p.1
    · simp only [hk] at h
      injection h with hv
      have hkp : k = p.1 := by simpa using hk
      rw [hkp, ← hv]
      exact List.mem_cons_self _ _
    · simp only [Bool.not_eq_true] at hk
      rw [hk] at h
      exact List.mem_cons_of_mem _ (ih h)

theorem lookup_isSome_iff {β : Type} (k : String) :
    ∀ l : List (String × β), (l.lookup k).isSome = true ↔ k ∈ l.map Prod.fst := by
  intro l
  induction l with
  | nil => simp [List.lookup]
  | cons p ps ih =>
    rw [List.lookup]
    by_cases hk : k == p.1
    · have : k = p.1 := by simpa using hk
      simp [hk, this]
    · simp only [Bool.not_eq_true] at hk
      rw [hk]
      have hne : k ≠ p.1 := by
        intro h
        rw [h] at hk
        simp at hk
      simp [ih, hne]

/-- The store invariant maintained by the reference operations: unique keys,
entries keyed by their own `chunk_id`, `embeddings`/`chunk_ids` coherent with
the documents dict. -/
def Wf (s : InMemoryVectorStore) : Prop :=
  (s.documents.map Prod.fst).Nodup ∧
  (∀ p ∈ s.documents, p.2.chunk_id = p.1) ∧
  s.embeddings = s.documents.filterMap (fun p => p.2.embedding) ∧
  s.chunk_ids = (s.documents.filter fun p => p.2.embedding.isSome).map (·.1)

theorem wf_empty : Wf empty := by
  refine ⟨List.nodup_nil, ?_, rfl, rfl⟩
  intro p hp
  exact absurd hp (List.not_mem_nil p)

theorem dictInsert_keys {β : Type} (d : List (String × β)) (k : String) (v : β) :
    (dictInsert d k v).map Prod.fst =
      if (d.lookup k).isSome then d.map Prod.fst else d.map Prod.fst ++ [k] := by
  unfold dictInsert
  by_cases h : (d.lookup k).isSome
  · simp only [h, if_true]
    rw [List.map_map]
    apply List.map_congr_left
    intro p _
    by_cases hp : p.1 = k
    · simp [hp]
    · simp [hp]
  · simp [h]

theorem dictInsert_mem {β : Type} (d : List (String × β)) (k : String) (v : β) :
    ∀ p ∈ dictInsert d k v, p = (k, v) ∨ p ∈ d := by
  intro p hp
  unfold dictInsert at hp
  by_cases h : (d.lookup k).isSome
  · simp only [h, if_true] at hp
    obtain ⟨q, hq, hqe⟩ := List.mem_map.mp hp
    by_cases hk : q.1 = k
    · left; rw [← hqe]; simp [hk]
    · right; rw [← hqe]; simpa [hk] using hq
  · simp only [h, if_false] at hp
    rcases List.mem_append.mp hp with h1 | h2
    · right; exact h1
    · left; simpa using h2

theorem dictInsert_keys_nodup {β : Type} (d : List (String × β)) (k : String)
    (v : β) (hd : (d.map Prod.fst).Nodup) :
    ((dictInsert d k v).map Prod.fst).Nodup := by
  rw [dictInsert_keys]
  by_cases h : (d.lookup k).isSome
  · rw [if_pos h]
    exact hd
  · rw [if_neg h]
    have hk : k ∉ d.map Prod.fst := fun hmem =>
      h ((lookup_isSome_iff k d).mpr hmem)
    rw [List.nodup_append]
    exact ⟨hd, List.nodup_singleton k, by simpa using hk⟩

/-- The documents-dict part of the `add_documents` fold preserves the key
invariants. -/
theorem add_fold_wf (docs : List VectorDocument) :
    ∀ (dm : List (String × VectorDocument)) (cids : List String) (cnt : ℕ),
      (dm.map Prod.fst).Nodup → (∀ p ∈ dm, p.2.chunk_id = p.1) →
      ((docs.foldl add_step (dm, cids, cnt)).1.map Prod.fst).Nodup ∧
      (∀ p ∈ (docs.foldl add_step (dm, cids, cnt)).1, p.2.chunk_id = p.1) := by
  induction docs with
  | nil => intro dm cids cnt h1 h2; exact ⟨h1, h2⟩
  | cons doc rest ih =>
    intro dm cids cnt h1 h2
    simp only [List.foldl_cons]
    cases hemb : doc.embedding with
    | none => simpa [add_step, hemb] using ih dm cids cnt h1 h2
    | some e =>
      simp only [add_step, hemb]
      apply ih
      · exact dictInsert_keys_nodup dm doc.chunk_id doc h1
      · intro p hp
        rcases dictInsert_mem dm doc.chunk_id doc p hp with h | h
        · rw [h]
        · exact h2 p h

theorem wf_add (s : InMemoryVectorStore) (docs : List VectorDocument)
    (hs : Wf s) : Wf (s.add_documents docs).1 := by
  obtain ⟨h1, h2, _, _⟩ := hs
  have h := add_fold_wf docs s.documents s.chunk_ids 0 h1 h2
  exact ⟨h.1, h.2, rfl, rfl⟩

theorem wf_delete (s : InMemoryVectorStore) (cid : String) (hs : Wf s) :
    Wf (s.delete_document cid).1 := by
  unfold delete_document
  by_cases h : (s.documents.lookup cid).isSome
  · rw [if_pos h]
    refine ⟨?_, ?_, rfl, rfl⟩
    · exact List.Nodup.sublist ((List.filter_sublist _).map Prod.fst) hs.1
    · intro p hp
      exact hs.2.1 p (List.mem_of_mem_filter hp)
  · rw [if_neg h]
    exact hs

/-- A well-formed-state-reachable operation on the store. -/
inductive StoreOp where
  | add (docs : List VectorDocument) : StoreOp
  | del (chunk_id : String) : StoreOp

def applyOp (s : InMemoryVectorStore) : StoreOp → InMemoryVectorStore
  | .add docs => (s.add_documents docs).1
  | .del cid => (s.delete_document cid).1

def applyOps (s : InMemoryVectorStore) (ops : List StoreOp) :
    InMemoryVectorStore :=
  ops.foldl applyOp s

theorem wf_applyOps (ops : List StoreOp) :
    ∀ s : InMemoryVectorStore, Wf s → Wf (applyOps s ops) := by
  induction ops with
  | nil => intro s hs; exact hs
  | cons op rest ih =>
    intro s hs
    apply ih
    cases op with
    | add docs => exact wf_add s docs hs
    | del cid => exact wf_delete s cid hs

theorem zip_fst_sublist {α β : Type} :
    ∀ (l : List α) (l' : List β), ((l.zip l').map Prod.fst).Sublist l := by
  intro l
  induction l with
  | nil => intro l'; simp
  | cons a as ih =>
    intro l'
    cases l' with
    | nil => simp
    | cons b bs =>
      simpa using List.Sublist.cons₂ a (ih bs)

/-- Under the invariant, each candidate's `chunk_id` is the zipped key it came
from, so the candidate keys form a sublist of `chunk_ids`. -/
theorem candidates_keys_sublist (s : InMemoryVectorStore)
    (sim : List ℚ → List ℚ → ℚ) (q : List ℚ) (df cf : Option String)
    (hs : Wf s) :
    ((search_candidates s sim q df cf).map (·.chunk_id)).Sublist s.chunk_ids := by
  unfold search_candidates
  have main : ∀ l : List (String × ℚ),
      (((l.filterMap fun cs =>
        match s.documents.lookup cs.1 with
        | none => none
        | some doc =>
          if filter_active df && doc.doc_id != (df.getD "") then none
          else if filter_active cf && doc.clause_hint != (cf.getD "") then none
          else some (⟨doc.chunk_id, doc.doc_id, doc.text, doc.page,
                      doc.clause_hint, cs.2⟩ : SearchResult)).map
        (·.chunk_id)).Sublist (l.map Prod.fst)) := by
    intro l
    induction l with
    | nil => simp
    | cons p ps ih =>
      simp only [List.filterMap_cons]
      cases hl : s.documents.lookup p.1 with
      | none =>
        simpa using List.Sublist.cons p.1 ih
      | some doc =>
        have hid : doc.chunk_id = p.1 :=
          hs.2.1 (p.1, doc) (lookup_mem p.1 doc s.documents hl)
        by_cases h1 : filter_active df && doc.doc_id != (df.getD "")
        · simpa [h1] using List.Sublist.cons p.1 ih
        · by_cases h2 : filter_active cf && doc.clause_hint != (cf.getD "")
          · simp only [h1, h2]
            simpa using List.Sublist.cons p.1 ih
          · simp only [h1, h2, if_false]
            simpa [hid] using List.Sublist.cons₂ p.1 ih
  exact (main (s.chunk_ids.zip (s.embeddings.map (sim q)))).trans
    (zip_fst_sublist _ _)

theorem candidates_mem_filters (s : InMemoryVectorStore)
    (sim : List ℚ → List ℚ → ℚ) (q : List ℚ) (df cf : Option String)
    (r : SearchResult) (hr : r ∈ search_candidates s sim q df cf) :
    (∀ f : String, df = some f → f ≠ "" → r.doc_id = f) ∧
    (∀ f : String, cf = some f → f ≠ "" → r.clause_hint = f) := by
  unfold search_candidates at hr
  obtain ⟨cs, _, heq⟩ := List.mem_filterMap.mp hr
  cases hl : s.documents.lookup cs.1 with
  | none => rw [hl] at heq; exact absurd heq (by simp)
  | some doc =>
    rw [hl] at heq
    simp only [] at heq
    by_cases h1 : filter_active df && doc.doc_id != (df.getD "")
    · rw [if_pos h1] at heq
      exact absurd heq (by simp)
    · rw [if_neg h1] at heq
      by_cases h2 : filter_active cf && doc.clause_hint != (cf.getD "")
      · rw [if_pos h2] at heq
        exact absurd heq (by simp)
      · rw [if_neg h2] at heq
        injection heq with heq'
        constructor
        · intro f hdf hf
          rw [← heq']
          show doc.doc_id = f
          rw [hdf] at h1
          have hact : filter_active (some f) = true := by
            simp [filter_active, hf]
          simp only [hact, Bool.true_and, hdf, Option.getD_some] at h1
          simpa using h1
        · intro f hcf hf
          rw [← heq']
          show doc.clause_hint = f
          rw [hcf] at h2
          have hact : filter_active (some f) = true := by
            simp [filter_active, hf]
          simp only [hact, Bool.true_and, hcf, Option.getD_some] at h2
          simpa using h2

theorem candidates_of_no_embeddings (s : InMemoryVectorStore)
    (sim : List ℚ → List ℚ → ℚ) (q : List ℚ) (df cf : Option String)
    (h : s.embeddings.isEmpty = true) :
    search_candidates s sim q df cf = [] := by
  unfold search_candidates
  have : s.embeddings = [] := by simpa [List.isEmpty_iff] using h
  rw [this]
  simp

/-- C3: every `search` call returns a list sorted by non-increasing score,
truncated to at most `top_k` results, in which every result satisfies an
active `doc_filter` and an active `clause_filter`; the filters act before the
truncation: the result length is the minimum of `top_k` and the number of
filtered candidates. -/
theorem c3_search_ranked_filtered_truncated (s : InMemoryVectorStore)
    (sim : List ℚ → List ℚ → ℚ) (q : List ℚ) (top_k : ℕ)
    (df cf : Option String) :
    (s.search sim q top_k df cf).Sorted (fun a b => b.score ≤ a.score) ∧
    (s.search sim q top_k df cf).length ≤ top_k ∧
    (∀ r ∈ s.search sim q top_k df cf,
      (∀ f : String, df = some f → f ≠ "" → r.doc_id = f) ∧
      (∀ f : String, cf = some f → f ≠ "" → r.clause_hint = f)) ∧
    (s.search sim q top_k df cf).length
      = min top_k (search_candidates s sim q df cf).length := by
  unfold search
  by_cases hemb : s.embeddings.isEmpty
  · rw [if_pos hemb]
    refine ⟨List.sorted_nil, Nat.zero_le _, ?_, ?_⟩
    · intro r hr
      exact absurd hr (List.not_mem_nil r)
    · rw [candidates_of_no_embeddings s sim q df cf hemb]
      simp
  · rw [if_neg hemb]
    refine ⟨?_, ?_, ?_, ?_⟩
    · have hpw := @List.sorted_mergeSort SearchResult
        (fun a b : SearchResult => decide (b.score ≤ a.score))
        (fun a b c hab hbc => by
          simp only [decide_eq_true_eq] at *
          exact le_trans hbc hab)
        (fun a b => by
          rcases le_total b.score a.score with h | h <;> simp [h])
        (search_candidates s sim q df cf)
      have hpw' : List.Pairwise (fun a b : SearchResult => b.score ≤ a.score)
          ((search_candidates s sim q df cf).mergeSort
            fun a b => decide (b.score ≤ a.score)) := by
        exact hpw.imp fun h => by simpa using h
      exact hpw'.sublist (List.take_sublist _ _)
    · rw [List.length_take]
      exact min_le_left _ _
    · intro r hr
      have hr' : r ∈ (search_candidates s sim q df cf).mergeSort
          (fun a b => decide (b.score ≤ a.score)) :=
        List.take_subset _ _ hr
      have hr'' : r ∈ search_candidates s sim q df cf :=
        List.mem_mergeSort.mp hr'
      exact candidates_mem_filters s sim q df cf r hr''
    · rw [List.length_take, List.length_mergeSort]

/-- Under the invariant, `search` never returns two results with the same
`chunk_id`. -/
theorem search_keys_nodup (s : InMemoryVectorStore)
    (sim : List ℚ → List ℚ → ℚ) (q : List ℚ) (top_k : ℕ)
    (df cf : Option String) (hs : Wf s) :
    ((s.search sim q top_k df cf).map (·.chunk_id)).Nodup := by
  unfold search
  by_cases hemb : s.embeddings.isEmpty
  · rw [if_pos hemb]; exact List.nodup_nil
  · rw [if_neg hemb]
    show ((((search_candidates s sim q df cf).mergeSort
        fun a b => decide (b.score ≤ a.score)).take top_k).map
        (fun r : SearchResult => r.chunk_id)).Nodup
    have hcids : s.chunk_ids.Nodup := by
      rw [hs.2.2.2]
      exact List.Nodup.sublist
        (List.Sublist.map (fun p : String × VectorDocument => p.1)
          (List.filter_sublist s.documents)) hs.1
    have hcand : ((search_candidates s sim q df cf).map
        (fun r : SearchResult => r.chunk_id)).Nodup :=
      List.Nodup.sublist (candidates_keys_sublist s sim q df cf hs) hcids
    have hperm := List.Perm.map (fun r : SearchResult => r.chunk_id)
      (List.mergeSort_perm (search_candidates s sim q df cf)
        fun a b => decide (b.score ≤ a.score))
    have hsorted := (List.Perm.nodup_iff hperm).mpr hcand
    exact List.Nodup.sublist
      (List.Sublist.map (fun r : SearchResult => r.chunk_id)
        (List.take_sublist top_k _)) hsorted

theorem add_fold_count (docs : List VectorDocument) :
    ∀ (dm : List (String × VectorDocument)) (cids : List String) (cnt : ℕ),
      (docs.foldl add_step (dm, cids, cnt)).2.2
        = cnt + docs.countP (fun d => d.embedding.isSome) := by
  induction docs with
  | nil => intro dm cids cnt; simp
  | cons doc rest ih =>
    intro dm cids cnt
    simp only [List.foldl_cons, List.countP_cons]
    cases hemb : doc.embedding with
    | none => simp only [add_step, hemb]; rw [ih]; simp [hemb]
    | some e => simp only [add_step, hemb]; rw [ih]; simp [hemb]; omega

/-- The returned count of `add_documents` is the number of records that carry
an embedding (replacements included, skipped records excluded). -/
theorem add_documents_count (s : InMemoryVectorStore)
    (docs : List VectorDocument) :
    (s.add_documents docs).2 = docs.countP (fun d => d.embedding.isSome) := by
  unfold add_documents
  simpa using add_fold_count docs s.documents s.chunk_ids 0

theorem lookup_map_replace {β : Type} (k : String) (v : β) :
    ∀ l : List (String × β),
      (l.map fun p => if p.1 = k then (k, v) else p).lookup k
        = if (l.lookup k).isSome then some v else none := by
  intro l
  induction l with
  | nil => simp [List.lookup]
  | cons p ps ih =>
    obtain ⟨a, b⟩ := p
    by_cases hp : a = k
    · subst hp
      rw [List.map_cons, if_pos rfl]
      simp [List.lookup]
    · rw [List.map_cons, if_neg hp]
      have hk : (k == a) = false := by simp [Ne.symm hp]
      simp only [List.lookup, hk]
      exact ih

theorem lookup_append_single {β : Type} (k : String) (v : β) :
    ∀ l : List (String × β), l.lookup k = none →
      (l ++ [(k, v)]).lookup k = some v := by
  intro l
  induction l with
  | nil => intro _; simp [List.lookup]
  | cons p ps ih =>
    intro h
    rw [List.lookup] at h
    by_cases hk : (k == p.1) = true
    · rw [hk] at h; exact absurd h (by simp)
    · have hk' : (k == p.1) = false := by simpa using hk
      rw [hk'] at h
      simp only [List.cons_append, List.lookup, hk']
      exact ih h

theorem dictInsert_lookup_self {β : Type} (l : List (String × β)) (k : String)
    (v : β) : (dictInsert l k v).lookup k = some v := by
  unfold dictInsert
  by_cases h : (l.lookup k).isSome
  · rw [if_pos h, lookup_map_replace, if_pos h]
  · rw [if_neg h]
    exact lookup_append_single k v l (Option.not_isSome_iff_eq_none.mp h)

/-- Adding a record without an embedding is a no-op on a coherent store: it is
neither indexed nor counted. -/
theorem add_documents_none_noop (s : InMemoryVectorStore) (hs : Wf s)
    (d : VectorDocument) (hd : d.embedding = none) :
    s.add_documents [d] = (s, 0) := by
  unfold add_documents
  simp only [List.foldl_cons, List.foldl_nil, add_step, hd]
  have h1 : rebuild_embeddings s.documents = (s.embeddings, s.chunk_ids) := by
    unfold rebuild_embeddings
    rw [← hs.2.2.1, ← hs.2.2.2]
  rw [h1]

/-- Adding a record whose `chunk_id` is already stored replaces the stored
record and leaves the key sequence unchanged (no duplication). -/
theorem add_documents_replaces (s : InMemoryVectorStore)
    (d : VectorDocument) (hemb : d.embedding.isSome)
    (hpresent : (s.documents.lookup d.chunk_id).isSome) :
    (s.add_documents [d]).1.documents.lookup d.chunk_id = some d ∧
    (s.add_documents [d]).1.documents.map Prod.fst
      = s.documents.map Prod.fst := by
  obtain ⟨e, he⟩ := Option.isSome_iff_exists.mp hemb
  unfold add_documents
  simp only [List.foldl_cons, List.foldl_nil, add_step, he]
  exact ⟨dictInsert_lookup_self s.documents d.chunk_id d,
    by rw [dictInsert_keys, if_pos hpresent]⟩

end InMemoryVectorStore

/-- C10: over any sequence of `add_documents`/`delete_document` operations
from the empty store: the stored keys stay duplicate-free and no `search`
returns two results with the same `chunk_id`; `add_documents` counts exactly
the records carrying an embedding, a single record without an embedding is
neither indexed nor counted, and re-adding an existing `chunk_id` replaces the
stored record without duplicating its key. -/
theorem c10_store_key_uniqueness (ops : List InMemoryVectorStore.StoreOp) :
    (((InMemoryVectorStore.applyOps InMemoryVectorStore.empty ops).documents.map
        Prod.fst).Nodup) ∧
    (∀ (sim : List ℚ → List ℚ → ℚ) (q : List ℚ) (top_k : ℕ)
        (df cf : Option String),
      (((InMemoryVectorStore.applyOps InMemoryVectorStore.empty ops).search
          sim q top_k df cf).map (·.chunk_id)).Nodup) ∧
    (∀ docs : List VectorDocument,
      ((InMemoryVectorStore.applyOps InMemoryVectorStore.empty ops).add_documents
          docs).2 = docs.countP fun d => d.embedding.isSome) ∧
    (∀ d : VectorDocument, d.embedding = none →
      (InMemoryVectorStore.applyOps InMemoryVectorStore.empty ops).add_documents [d]
        = (InMemoryVectorStore.applyOps InMemoryVectorStore.empty ops, 0)) ∧
    (∀ d : VectorDocument, d.embedding.isSome →
      ((InMemoryVectorStore.applyOps InMemoryVectorStore.empty ops).documents.lookup
          d.chunk_id).isSome →
      ((InMemoryVectorStore.applyOps InMemoryVectorStore.empty ops).add_documents
          [d]).1.documents.lookup d.chunk_id = some d ∧
      ((InMemoryVectorStore.applyOps InMemoryVectorStore.empty ops).add_documents
          [d]).1.documents.map Prod.fst
        = (InMemoryVectorStore.applyOps InMemoryVectorStore.empty ops).documents.map
            Prod.fst) := by
  have hwf := InMemoryVectorStore.wf_applyOps ops InMemoryVectorStore.empty
    InMemoryVectorStore.wf_empty
  exact ⟨hwf.1,
    fun sim q top_k df cf =>
      InMemoryVectorStore.search_keys_nodup _ sim q top_k df cf hwf,
    fun docs => InMemoryVectorStore.add_documents_count _ docs,
    fun d hd => InMemoryVectorStore.add_documents_none_noop _ hwf d hd,
    fun d h1 h2 => InMemoryVectorStore.add_documents_replaces _ d h1 h2⟩

def c10DocA : VectorDocument := ⟨"c1", "d1", "甲方付款条款", some [3], 1, "payment"⟩

def c10DocNone : VectorDocument := ⟨"c2", "d1", "无向量", none, 1, "unknown"⟩

def c10DocA2 : VectorDocument := ⟨"c1", "d1", "更新的付款条款", some [2], 1, "payment"⟩

def c10Ops : List InMemoryVectorStore.StoreOp :=
  [InMemoryVectorStore.StoreOp.add [c10DocA]]

theorem c10_witness :
    (InMemoryVectorStore.applyOps InMemoryVectorStore.empty c10Ops).add_documents
        [c10DocNone]
      = (InMemoryVectorStore.applyOps InMemoryVectorStore.empty c10Ops, 0) ∧
    ((InMemoryVectorStore.applyOps InMemoryVectorStore.empty c10Ops).add_documents
        [c10DocA2]).1.documents.lookup c10DocA2.chunk_id = some c10DocA2 ∧
    ((InMemoryVectorStore.applyOps InMemoryVectorStore.empty c10Ops).add_documents
        [c10DocA2]).1.documents.map Prod.fst
      = (InMemoryVectorStore.applyOps InMemoryVectorStore.empty c10Ops).documents.map
          Prod.fst := by
  have h := c10_store_key_uniqueness c10Ops
  have h4 := h.2.2.2.1 c10DocNone rfl
  have h5 := h.2.2.2.2 c10DocA2 rfl (by decide)
  exact ⟨h4, h5.1, h5.2⟩

def c3DocB : VectorDocument := ⟨"c2", "d2", "保密条款", some [5], 1, "confidentiality"⟩

def c3DocC : VectorDocument := ⟨"c3", "d1", "终止条款", some [1], 2, "termination"⟩

def c3Store : InMemoryVectorStore :=
  (InMemoryVectorStore.empty.add_documents [c10DocA, c3DocB, c3DocC]).1

/-- A concrete stand-in for the cosine score: the first coordinate of the
stored embedding. -/
def c3Sim : List ℚ → List ℚ → ℚ := fun _ e => e.headD 0

unseal List.merge List.mergeSort in
theorem c3_witness :
    (c3Store.search c3Sim [0] 2 (some "d1") none).Sorted
      (fun a b => b.score ≤ a.score) ∧
    (c3Store.search c3Sim [0] 2 (some "d1") none).length
      = min 2 (InMemoryVectorStore.search_candidates c3Store c3Sim [0]
          (some "d1") none).length ∧
    (⟨"c1", "d1", "甲方付款条款", 1, "payment", 3⟩ : SearchResult)
        ∈ c3Store.search c3Sim [0] 2 (some "d1") none ∧
    (⟨"c1", "d1", "甲方付款条款", 1, "payment", 3⟩ : SearchResult).doc_id = "d1" := by
  have h := InMemoryVectorStore.c3_search_ranked_filtered_truncated c3Store c3Sim
    [0] 2 (some "d1") none
  have hmem : (⟨"c1", "d1", "甲方付款条款", 1, "payment", 3⟩ : SearchResult)
      ∈ c3Store.search c3Sim [0] 2 (some "d1") none := by decide
  exact ⟨h.1, h.2.2.2, hmem,
    (h.2.2.1 _ hmem).1 "d1" rfl (by decide)⟩

/-! ### C7: batch-failure isolation in `process_chunks` -/

namespace EmbeddingPipeline

/-- The vector documents one batch contributes (none when its encoding
raises). -/
def batch_docs (encode : List String → Except String (List (List ℚ)))
    (b : List Chunk) : List VectorDocument :=
  match encode (b.map (·.text)) with
  | .ok embs => (b.zip embs).map fun p => make_vector_doc p.1 p.2
  | .error _ => []

/-- The number of texts one batch contributes to `failed_count`. -/
def batch_failed (encode : List String → Except String (List (List ℚ)))
    (b : List Chunk) : ℕ :=
  match encode (b.map (·.text)) with
  | .ok _ => 0
  | .error _ => (b.map (·.text)).length

/-- The rows one batch contributes to the embeddings accumulator: the encoded
vectors, or one zero vector per text on failure. -/
def batch_embs (dim : ℕ) (encode : List String → Except String (List (List ℚ)))
    (b : List Chunk) : List (List ℚ) :=
  match encode (b.map (·.text)) with
  | .ok embs => embs
  | .error _ => List.replicate b.length (List.replicate dim 0)

/-- The batch fold decomposes component-wise into the per-batch
contributions. -/
theorem fold_batches (dim : ℕ)
    (encode : List String → Except String (List (List ℚ))) :
    ∀ (bl : List (List Chunk))
      (st : List VectorDocument × ℕ × List (List ℚ)),
      bl.foldl (process_batch dim encode) st =
        (st.1 ++ (bl.map (batch_docs encode)).flatten,
         st.2.1 + ((bl.map (batch_failed encode)).sum),
         st.2.2 ++ (bl.map (batch_embs dim encode)).flatten) := by
  intro bl
  induction bl with
  | nil => intro st; simp
  | cons b rest ih =>
    intro st
    simp only [List.foldl_cons, List.map_cons, List.flatten_cons, List.sum_cons]
    rw [ih]
    unfold process_batch batch_docs batch_failed batch_embs
    cases hb : encode (b.map (·.text)) with
    | ok embs => simp
    | error e => simp; omega

end EmbeddingPipeline

namespace InMemoryVectorStore

theorem mem_keys_dictInsert_self (d : List (String × VectorDocument))
    (k : String) (v : VectorDocument) :
    k ∈ (dictInsert d k v).map Prod.fst := by
  rw [dictInsert_keys]
  by_cases h : (d.lookup k).isSome
  · rw [if_pos h]
    exact (lookup_isSome_iff k d).mp h
  · rw [if_neg h]
    simp

theorem mem_keys_dictInsert_mono (d : List (String × VectorDocument))
    (k k' : String) (v : VectorDocument) (hk : k' ∈ d.map Prod.fst) :
    k' ∈ (dictInsert d k v).map Prod.fst := by
  rw [dictInsert_keys]
  by_cases h : (d.lookup k).isSome
  · rw [if_pos h]; exact hk
  · rw [if_neg h]; exact List.mem_append_left _ hk

theorem add_fold_keys_mono (docs : List VectorDocument) :
    ∀ (dm : List (String × VectorDocument)) (cids : List String) (cnt : ℕ)
      (k : String), k ∈ dm.map Prod.fst →
      k ∈ (docs.foldl add_step (dm, cids, cnt)).1.map Prod.fst := by
  induction docs with
  | nil => intro dm cids cnt k hk; exact hk
  | cons doc rest ih =>
    intro dm cids cnt k hk
    simp only [List.foldl_cons]
    cases hemb : doc.embedding with
    | none => simp only [add_step, hemb]; exact ih dm cids cnt k hk
    | some e =>
      simp only [add_step, hemb]
      exact ih _ _ _ k (mem_keys_dictInsert_mono dm doc.chunk_id k doc hk)

theorem add_fold_keys_of_mem (docs : List VectorDocument) :
    ∀ (dm : List (String × VectorDocument)) (cids : List String) (cnt : ℕ)
      (d : VectorDocument), d ∈ docs → d.embedding.isSome →
      d.chunk_id ∈ (docs.foldl add_step (dm, cids, cnt)).1.map Prod.fst := by
  induction docs with
  | nil => intro dm cids cnt d hd; exact absurd hd (List.not_mem_nil d)
  | cons doc rest ih =>
    intro dm cids cnt d hd hemb
    simp only [List.foldl_cons]
    rcases List.mem_cons.mp hd with h | h
    · subst h
      obtain ⟨e, he⟩ := Option.isSome_iff_exists.mp hemb
      simp only [add_step, he]
      exact add_fold_keys_mono rest _ _ _ d.chunk_id
        (mem_keys_dictInsert_self dm d.chunk_id d)
    · cases hde : doc.embedding with
      | none => simp only [add_step, hde]; exact ih dm cids cnt d h hemb
      | some e => simp only [add_step, hde]; exact ih _ _ _ d h hemb

/-- A record with an embedding that is in the added list ends up keyed in the
store. -/
theorem add_documents_key_mem (s : InMemoryVectorStore)
    (docs : List VectorDocument) (d : VectorDocument) (hd : d ∈ docs)
    (hemb : d.embedding.isSome) :
    d.chunk_id ∈ (s.add_documents docs).1.documents.map Prod.fst := by
  unfold add_documents
  exact add_fold_keys_of_mem docs s.documents s.chunk_ids 0 d hd hemb

end InMemoryVectorStore

/-- C7: `process_chunks` is total (a batch failure never raises out of it);
a failed batch contributes exactly its text count to `failed_count` and one
zero vector per text to the embeddings accumulator, while every successfully
encoded batch — before or after a failure — contributes its vector documents,
which are added to the vector store. -/
theorem c7_batch_failures_degraded (dim : ℕ)
    (encode : List String → Except String (List (List ℚ)))
    (store : InMemoryVectorStore) (chunks : List Chunk) (batch_size : ℕ) :
    (EmbeddingPipeline.process_chunks dim encode store chunks batch_size).1.failed_count
      = ((EmbeddingPipeline.batches batch_size chunks).map
          (EmbeddingPipeline.batch_failed encode)).sum ∧
    (EmbeddingPipeline.process_chunks dim encode store chunks batch_size).1.vectors
      = ((EmbeddingPipeline.batches batch_size chunks).map
          (EmbeddingPipeline.batch_docs encode)).flatten ∧
    (EmbeddingPipeline.process_chunks dim encode store chunks batch_size).1.all_embeddings
      = ((EmbeddingPipeline.batches batch_size chunks).map
          (EmbeddingPipeline.batch_embs dim encode)).flatten ∧
    (EmbeddingPipeline.process_chunks dim encode store chunks batch_size).1.total_processed
      = chunks.length ∧
    (∀ b ∈ EmbeddingPipeline.batches batch_size chunks, ∀ e : String,
      encode (b.map (·.text)) = .error e →
        EmbeddingPipeline.batch_failed encode b = (b.map (·.text)).length ∧
        EmbeddingPipeline.batch_embs dim encode b
          = List.replicate b.length (List.replicate dim 0)) ∧
    (∀ b ∈ EmbeddingPipeline.batches batch_size chunks,
      ∀ embs : List (List ℚ), encode (b.map (·.text)) = .ok embs →
      ∀ p ∈ b.zip embs,
        EmbeddingPipeline.make_vector_doc p.1 p.2
            ∈ (EmbeddingPipeline.process_chunks dim encode store chunks batch_size).1.vectors ∧
          p.1.chunk_id ∈ (EmbeddingPipeline.process_chunks dim encode store chunks
            batch_size).2.documents.map Prod.fst) := by
  have hfold := EmbeddingPipeline.fold_batches dim encode
    (EmbeddingPipeline.batches batch_size chunks) ([], 0, [])
  have hvecs : (EmbeddingPipeline.process_chunks dim encode store chunks
      batch_size).1.vectors
      = ((EmbeddingPipeline.batches batch_size chunks).map
          (EmbeddingPipeline.batch_docs encode)).flatten := by
    show ((EmbeddingPipeline.batches batch_size chunks).foldl
      (EmbeddingPipeline.process_batch dim encode) ([], 0, [])).1 = _
    rw [hfold]
    simp
  refine ⟨?_, hvecs, ?_, rfl, ?_, ?_⟩
  · show ((EmbeddingPipeline.batches batch_size chunks).foldl
      (EmbeddingPipeline.process_batch dim encode) ([], 0, [])).2.1 = _
    rw [hfold]
    simp
  · show ((EmbeddingPipeline.batches batch_size chunks).foldl
      (EmbeddingPipeline.process_batch dim encode) ([], 0, [])).2.2 = _
    rw [hfold]
    simp
  · intro b _ e he
    unfold EmbeddingPipeline.batch_failed EmbeddingPipeline.batch_embs
    rw [he]
    exact ⟨rfl, rfl⟩
  · intro b hb embs hok p hp
    have hdoc : EmbeddingPipeline.make_vector_doc p.1 p.2
        ∈ EmbeddingPipeline.batch_docs encode b := by
      unfold EmbeddingPipeline.batch_docs
      rw [hok]
      exact List.mem_map_of_mem _ hp
    have hmemv : EmbeddingPipeline.make_vector_doc p.1 p.2
        ∈ (EmbeddingPipeline.process_chunks dim encode store chunks
            batch_size).1.vectors := by
      rw [hvecs]
      exact List.mem_flatten.mpr ⟨EmbeddingPipeline.batch_docs encode b,
        List.mem_map_of_mem _ hb, hdoc⟩
    refine ⟨hmemv, ?_⟩
    have hne : ¬((EmbeddingPipeline.process_chunks dim encode store chunks
        batch_size).1.vectors).isEmpty := by
      intro hempty
      rw [List.isEmpty_iff] at hempty
      rw [hempty] at hmemv
      exact List.not_mem_nil _ hmemv
    have hstore : (EmbeddingPipeline.process_chunks dim encode store chunks
        batch_size).2
        = (store.add_documents ((EmbeddingPipeline.process_chunks dim encode
            store chunks batch_size).1.vectors)).1 := by
      have hne' : ¬((EmbeddingPipeline.batches batch_size chunks).foldl
          (EmbeddingPipeline.process_batch dim encode) ([], 0, [])).1.isEmpty
            = true := hne
      show (if ((EmbeddingPipeline.batches batch_size chunks).foldl
          (EmbeddingPipeline.process_batch dim encode) ([], 0, [])).1.isEmpty
          then store else _) = _
      rw [if_neg hne']
      rfl
    rw [hstore]
    apply InMemoryVectorStore.add_documents_key_mem store _ _ hmemv
    show (some p.2).isSome
    rfl

def c7Chunk1 : Chunk :=
  ⟨"d_p1_c0", "d", 1, "第一段内容", "unknown", 0, 5, 5, false⟩

def c7Chunk2 : Chunk :=
  ⟨"d_p1_c1", "d", 1, "第二段内容", "unknown", 5, 10, 5, false⟩

/-- A provider that raises on the first chunk's batch and succeeds on the
second. -/
def c7Encode : List String → Except String (List (List ℚ)) :=
  fun ts => if ts = ["第一段内容"] then .error "API 错误" else .ok [[1, 0]]

theorem c7_witness :
    (EmbeddingPipeline.process_chunks 2 c7Encode InMemoryVectorStore.empty
        [c7Chunk1, c7Chunk2] 1).1.failed_count = 1 ∧
    (EmbeddingPipeline.process_chunks 2 c7Encode InMemoryVectorStore.empty
        [c7Chunk1, c7Chunk2] 1).1.all_embeddings = [[0, 0], [1, 0]] ∧
    EmbeddingPipeline.make_vector_doc c7Chunk2 [1, 0]
        ∈ (EmbeddingPipeline.process_chunks 2 c7Encode InMemoryVectorStore.empty
            [c7Chunk1, c7Chunk2] 1).1.vectors ∧
    c7Chunk2.chunk_id
        ∈ (EmbeddingPipeline.process_chunks 2 c7Encode InMemoryVectorStore.empty
            [c7Chunk1, c7Chunk2] 1).2.documents.map Prod.fst := by
  have h := c7_batch_failures_degraded 2 c7Encode InMemoryVectorStore.empty
    [c7Chunk1, c7Chunk2] 1
  have hb : EmbeddingPipeline.batches 1 [c7Chunk1, c7Chunk2]
      = [[c7Chunk1], [c7Chunk2]] := by
    simp [EmbeddingPipeline.batches]
  have hmem : [c7Chunk2] ∈ EmbeddingPipeline.batches 1 [c7Chunk1, c7Chunk2] := by
    rw [hb]; simp
  have hok : c7Encode ([c7Chunk2].map (·.text)) = .ok [[1, 0]] := by
    show (if ["第二段内容"] = ["第一段内容"] then _ else _) = _
    rw [if_neg (by decide)]
  have hlast := h.2.2.2.2.2 [c7Chunk2] hmem [[1, 0]] hok (c7Chunk2, [1, 0])
    (by simp)
  refine ⟨?_, ?_, hlast.1, hlast.2⟩
  · rw [h.1, hb]; rfl
  · rw [h.2.2.1, hb]; rfl

/-! ### C6: the deterministic fallback encoder -/

namespace OpenAIEmbeddingProvider

theorem mock_raw_length (dimension : ℕ) (hb : List ℕ) :
    (mock_raw dimension hb).length = dimension := by
  unfold mock_raw
  rw [List.length_map, List.length_range]

theorem mock_normalize_length (v : List ℚ) :
    (mock_normalize v).length = v.length := by
  unfold mock_normalize
  by_cases h : 0 < sumSq v
  · rw [if_pos h, List.length_map]
  · rw [if_neg h, List.length_map]

theorem mock_normalize_unit (v : List ℚ) (h : 0 < sumSq v) :
    ((mock_normalize v).map fun x : ℝ => x^2).sum = 1 := by
  unfold mock_normalize
  rw [if_pos h, List.map_map]
  have hS : sumSq v ≠ 0 := ne_of_gt h
  have hsq : Real.sqrt (sumSq v) ^ 2 = sumSq v := Real.sq_sqrt (le_of_lt h)
  have hmap : v.map ((fun x : ℝ => x^2) ∘ fun x : ℚ => (x : ℝ) / Real.sqrt (sumSq v))
      = v.map fun x : ℚ => ((x : ℝ))^2 * (Real.sqrt (sumSq v) ^ 2)⁻¹ := by
    apply List.map_congr_left
    intro x _
    show ((x : ℝ) / _)^2 = _
    rw [div_pow, div_eq_mul_inv]
  rw [hmap, List.sum_map_mul_right]
  show sumSq v * _ = 1
  rw [hsq, mul_inv_cancel₀ hS]

end OpenAIEmbeddingProvider

/-- C6: the fallback encoder is a pure function of the input text (two calls
on the same text return the identical vector), every returned vector has
length `dimension`, and whenever the pre-normalization vector is non-zero
(guaranteed for a real SHA-256 digest) the returned vector has unit L2 norm. -/
theorem c6_mock_encode_deterministic (dimension : ℕ)
    (hashBytes : String → List ℕ) :
    (∀ (texts₁ texts₂ : List String) (i j : ℕ) (t : String),
      texts₁[i]? = some t → texts₂[j]? = some t →
      (OpenAIEmbeddingProvider.mock_encode dimension hashBytes texts₁)[i]?
        = (OpenAIEmbeddingProvider.mock_encode dimension hashBytes texts₂)[j]?) ∧
    (∀ texts : List String,
      ∀ v ∈ OpenAIEmbeddingProvider.mock_encode dimension hashBytes texts,
        v.length = dimension) ∧
    (∀ t : String,
      0 < OpenAIEmbeddingProvider.sumSq
          (OpenAIEmbeddingProvider.mock_raw dimension (hashBytes t)) →
      ((OpenAIEmbeddingProvider.mock_normalize
          (OpenAIEmbeddingProvider.mock_raw dimension (hashBytes t))).map
            fun x : ℝ => x^2).sum = 1) := by
  refine ⟨?_, ?_, ?_⟩
  · intro t1 t2 i j t h1 h2
    unfold OpenAIEmbeddingProvider.mock_encode
    rw [List.getElem?_map, List.getElem?_map, h1, h2]
  · intro texts v hv
    unfold OpenAIEmbeddingProvider.mock_encode at hv
    obtain ⟨t, _, rfl⟩ := List.mem_map.mp hv
    rw [OpenAIEmbeddingProvider.mock_normalize_length,
      OpenAIEmbeddingProvider.mock_raw_length]
  · intro t h
    exact OpenAIEmbeddingProvider.mock_normalize_unit _ h

/-- A stand-in for `hashlib.sha256(...).digest()`: a constant 32-byte
digest. -/
def c6Hash : String → List ℕ := fun _ => List.replicate 32 255

theorem c6_witness :
    0 < OpenAIEmbeddingProvider.sumSq
        (OpenAIEmbeddingProvider.mock_raw 2 (c6Hash "合同")) ∧
    ((OpenAIEmbeddingProvider.mock_normalize
        (OpenAIEmbeddingProvider.mock_raw 2 (c6Hash "合同"))).map
          fun x : ℝ => x^2).sum = 1 ∧
    (OpenAIEmbeddingProvider.mock_encode 2 c6Hash ["合同"])[0]?
      = (OpenAIEmbeddingProvider.mock_encode 2 c6Hash ["条款", "合同"])[1]? := by
  have h := c6_mock_encode_deterministic 2 c6Hash
  have hraw : OpenAIEmbeddingProvider.mock_raw 2 (c6Hash "合同") = [1, 1] := by
    show OpenAIEmbeddingProvider.mock_raw 2 (List.replicate 32 255) = [1, 1]
    unfold OpenAIEmbeddingProvider.mock_raw
    norm_num [List.range_succ]
  have hpos : 0 < OpenAIEmbeddingProvider.sumSq
      (OpenAIEmbeddingProvider.mock_raw 2 (c6Hash "合同")) := by
    rw [hraw]
    show (0 : ℝ) < ([(1 : ℚ), 1].map fun x : ℚ => ((x : ℝ))^2).sum
    norm_num
  exact ⟨hpos, h.2.2 "合同" hpos, h.1 ["合同"] ["条款", "合同"] 0 1 "合同" rfl rfl⟩

/-! ### C2: token budgets in the chunker -/

namespace DocumentChunker

theorem wordRunsGo_append (c : Char) (hc : wordChar c = false) :
    ∀ (xs : List Char) (acc : List Char) (ys : List Char),
      wordRunsGo acc (xs ++ c :: ys) = wordRunsGo acc xs ++ wordRunsGo [] ys := by
  intro xs
  induction xs with
  | nil =>
    intro acc ys
    show wordRunsGo acc (c :: ys) = wordRunsGo acc [] ++ wordRunsGo [] ys
    by_cases ha : acc.isEmpty
    · conv_lhs => rw [wordRunsGo, if_neg (by simp [hc]), if_pos ha]
      conv_rhs => rw [wordRunsGo, if_pos ha]
      rw [List.nil_append]
    · conv_lhs => rw [wordRunsGo, if_neg (by simp [hc]), if_neg ha]
      conv_rhs => rw [wordRunsGo, if_neg ha]
      rw [List.singleton_append]
  | cons x xs ih =>
    intro acc ys
    show wordRunsGo acc (x :: (xs ++ c :: ys)) = wordRunsGo acc (x :: xs) ++ wordRunsGo [] ys
    by_cases hx : wordChar x
    · conv_lhs => rw [wordRunsGo, if_pos hx]
      conv_rhs => rw [wordRunsGo, if_pos hx]
      exact ih (x :: acc) ys
    · by_cases ha : acc.isEmpty
      · conv_lhs => rw [wordRunsGo, if_neg hx, if_pos ha]
        conv_rhs => rw [wordRunsGo, if_neg hx, if_pos ha]
        exact ih [] ys
      · conv_lhs => rw [wordRunsGo, if_neg hx, if_neg ha]
        conv_rhs => rw [wordRunsGo, if_neg hx, if_neg ha]
        rw [ih [] ys, List.cons_append]

theorem toList_append (a b : String) : (a ++ b).toList = a.toList ++ b.toList := rfl

/-- Token estimation is additive across the `"\n\n"` paragraph joints: a
newline is neither a CJK character nor a word character. -/
theorem estimate_tokens_append_sep (a b : String) :
    estimate_tokens (a ++ "\n\n" ++ b) = estimate_tokens a + estimate_tokens b := by
  unfold estimate_tokens
  have htl : (a ++ "\n\n" ++ b).toList = a.toList ++ '\n' :: '\n' :: b.toList := by
    rw [toList_append, toList_append, List.append_assoc]
    rfl
  have hcjk : ((a ++ "\n\n" ++ b).toList.countP isCJK)
      = a.toList.countP isCJK + b.toList.countP isCJK := by
    rw [htl, List.countP_append]
    simp [List.countP_cons, isCJK]
  have hskip : wordRunsGo [] ('\n' :: b.toList) = wordRunsGo [] b.toList := by
    rw [wordRunsGo, if_neg (by decide), if_pos (by decide)]
  have hruns : wordRuns (a ++ "\n\n" ++ b) = wordRuns a ++ wordRuns b := by
    unfold wordRuns
    rw [htl]
    rw [wordRunsGo_append '\n' (by decide) a.toList [] ('\n' :: b.toList)]
    rw [hskip]
  rw [hcjk, hruns, List.countP_append]
  omega

/-- A text is (at most) a single sentence: its re-split contains at most one
non-blank entry. -/
def single_sentence (t : String) : Prop :=
  ((sentence_split t).filter fun s => pyStrip s != "").length ≤ 1

theorem sentence_split_go_no_delim :
    ∀ (l acc : List Char), (∀ a ∈ l, isSentenceDelim a = false) →
      sentence_split_go acc l = [String.mk (acc ++ l)] := by
  intro l
  induction l with
  | nil => intro acc _; simp [sentence_split_go]
  | cons c cs ih =>
    intro acc h
    rw [sentence_split_go]
    rw [if_neg (by simp [h c (List.mem_cons_self c cs)])]
    rw [ih (acc ++ [c]) fun a ha => h a (List.mem_cons_of_mem c ha)]
    simp

theorem sentence_split_go_delim_last (d : Char) (hd : isSentenceDelim d = true) :
    ∀ (pre acc : List Char), (∀ a ∈ pre, isSentenceDelim a = false) →
      sentence_split_go acc (pre ++ [d])
        = [String.mk (acc ++ pre ++ [d]), ""] := by
  intro pre
  induction pre with
  | nil =>
    intro acc _
    show sentence_split_go acc [d] = _
    rw [sentence_split_go, if_pos hd, sentence_split_go]
    simp
  | cons c cs ih =>
    intro acc h
    show sentence_split_go acc (c :: (cs ++ [d])) = _
    rw [sentence_split_go]
    rw [if_neg (by simp [h c (List.mem_cons_self c cs)])]
    rw [ih (acc ++ [c]) fun a ha => h a (List.mem_cons_of_mem c ha)]
    simp

/-- Every entry produced by the sentence splitter is a single sentence. -/
theorem sentence_split_go_single :
    ∀ (l acc : List Char), (∀ a ∈ acc, isSentenceDelim a = false) →
      ∀ t ∈ sentence_split_go acc l, single_sentence t := by
  intro l
  induction l with
  | nil =>
    intro acc hacc t ht
    rw [sentence_split_go] at ht
    rcases List.mem_singleton.mp ht with rfl
    unfold single_sentence sentence_split
    rw [show (String.mk acc).toList = acc from rfl]
    rw [sentence_split_go_no_delim acc [] hacc]
    calc (List.filter (fun s => pyStrip s != "") [String.mk ([] ++ acc)]).length
        ≤ [String.mk ([] ++ acc)].length := List.length_filter_le _ _
      _ = 1 := rfl
  | cons c cs ih =>
    intro acc hacc t ht
    rw [sentence_split_go] at ht
    by_cases hc : isSentenceDelim c
    · rw [if_pos hc] at ht
      rcases List.mem_cons.mp ht with rfl | ht'
      · unfold single_sentence sentence_split
        rw [show (String.mk (acc ++ [c])).toList = acc ++ [c] from rfl]
        rw [sentence_split_go_delim_last c hc acc [] hacc]
        have h0 : (pyStrip "" != "") = false := by decide
        simp only [List.filter_cons, List.filter_nil, h0]
        split
        · simp
        · simp
      · exact ih [] (by intro a ha; exact absurd ha (List.not_mem_nil a)) t ht'
    · rw [if_neg hc] at ht
      refine ih (acc ++ [c]) ?_ t ht
      intro a ha
      rcases List.mem_append.mp ha with h | h
      · exact hacc a h
      · rcases List.mem_singleton.mp h with rfl
        simpa using hc

theorem sentence_split_single (p : String) :
    ∀ t ∈ sentence_split p, single_sentence t := by
  intro t ht
  exact sentence_split_go_single p.toList []
    (by intro a ha; exact absurd ha (List.not_mem_nil a)) t ht

end DocumentChunker

namespace DocumentChunker

/-- Every chunk emitted by the sentence-packing loop either fits the budget or
is a single (over-long) sentence — regardless of its position. -/
theorem split_loop_bounded (maxT : ℕ) :
    ∀ (ss chunks : List String) (current : String),
      (∀ c ∈ chunks, estimate_tokens c ≤ maxT ∨ single_sentence c) →
      (current = "" ∨ estimate_tokens current ≤ maxT ∨ single_sentence current) →
      (∀ s ∈ ss, single_sentence s) →
      ∀ c ∈ split_loop maxT ss chunks current,
        estimate_tokens c ≤ maxT ∨ single_sentence c := by
  intro ss
  induction ss with
  | nil =>
    intro chunks current hch hcur _ c hc
    simp only [split_loop] at hc
    split at hc
    · next hne =>
      rcases List.mem_append.mp hc with h1 | h1
      · exact hch c h1
      · rcases List.mem_singleton.mp h1 with rfl
        rcases hcur with he | hq
        · rw [he] at hne
          exact absurd hne (by decide)
        · exact hq
    · exact hch c hc
  | cons s rest ih =>
    intro chunks current hch hcur hss c hc
    have hsingle : single_sentence s := hss s (List.mem_cons_self s rest)
    have hrest : ∀ x ∈ rest, single_sentence x :=
      fun x hx => hss x (List.mem_cons_of_mem s hx)
    simp only [split_loop] at hc
    split at hc
    · exact ih chunks current hch hcur hrest c hc
    · split at hc
      · next htest =>
        exact ih chunks (current ++ s) hch (Or.inr (Or.inl htest)) hrest c hc
      · split at hc
        · next hne =>
          refine ih (chunks ++ [current]) s ?_ (Or.inr (Or.inr hsingle)) hrest c hc
          intro x hx
          rcases List.mem_append.mp hx with h1 | h1
          · exact hch x h1
          · rcases List.mem_singleton.mp h1 with rfl
            rcases hcur with he | hq
            · rw [he] at hne
              exact absurd hne (by decide)
            · exact hq
        · exact ih chunks s hch (Or.inr (Or.inr hsingle)) hrest c hc

/-- Every sub-chunk of `_split_long_paragraph` either fits `max_tokens` or is
a single sentence. -/
theorem split_long_paragraph_bounded (maxT : ℕ) (para : String) :
    ∀ c ∈ split_long_paragraph maxT para,
      estimate_tokens c ≤ maxT ∨ single_sentence c := by
  intro c hc
  refine split_loop_bounded maxT (sentence_split para) [] "" ?_ (Or.inl rfl) ?_ c hc
  · intro x hx
    exact absurd hx (List.not_mem_nil x)
  · exact sentence_split_single para

/-- The per-chunk token budget of the amended claim C2. -/
def ChunkOk (cfg : Config) (c : Chunk) : Prop :=
  (c.from_split = true →
    c.token_count ≤ cfg.max_chunk_size ∨ single_sentence c.text) ∧
  (c.from_split = false →
    c.token_count ≤ max cfg.target_chunk_size cfg.max_chunk_size)

/-- The packing-state invariant. -/
def StOk (cfg : Config) (st : ChunkState) : Prop :=
  (∀ c ∈ st.chunks, ChunkOk cfg c) ∧
  (st.current = "" ∨
    estimate_tokens st.current ≤ max cfg.target_chunk_size cfg.max_chunk_size)

theorem flush_chunk_current (doc_id : String) (page_number : ℤ)
    (chunk_index : ℕ) (st : ChunkState) (hst : StOk cfg st) :
    (flush_chunk doc_id page_number chunk_index st).current = "" := by
  unfold flush_chunk
  split
  · rfl
  · next hne =>
    rcases hst.2 with he | _
    · exact he
    · by_cases h : st.current = ""
      · exact h
      · exact absurd (by simpa using h) hne

theorem flush_chunk_ok (cfg : Config) (doc_id : String) (page_number : ℤ)
    (chunk_index : ℕ) (st : ChunkState) (hst : StOk cfg st) :
    StOk cfg (flush_chunk doc_id page_number chunk_index st) := by
  unfold flush_chunk
  split
  · next hne =>
    refine ⟨?_, Or.inl rfl⟩
    intro c hc
    rcases List.mem_append.mp hc with h1 | h1
    · exact hst.1 c h1
    · rcases List.mem_singleton.mp h1 with rfl
      constructor
      · intro h
        exact absurd h (by simp [create_chunk])
      · intro _
        show estimate_tokens st.current ≤ _
        rcases hst.2 with he | hq
        · rw [he] at hne
          exact absurd hne (by decide)
        · exact hq
  · exact hst

theorem split_fold_ok (cfg : Config) (doc_id : String) (page_number : ℤ)
    (chunk_index : ℕ) :
    ∀ (subs : List String) (st : ChunkState),
      (∀ c ∈ st.chunks, ChunkOk cfg c) →
      (∀ t ∈ subs, estimate_tokens t ≤ cfg.max_chunk_size ∨ single_sentence t) →
      (∀ c ∈ (subs.foldl
        (fun (st : ChunkState) sub =>
          ⟨st.chunks ++ [create_chunk doc_id page_number
              (st.chunks.length + chunk_index) sub st.char_offset true],
           st.current, st.char_offset + sub.length⟩) st).chunks, ChunkOk cfg c) ∧
      (subs.foldl
        (fun (st : ChunkState) sub =>
          ⟨st.chunks ++ [create_chunk doc_id page_number
              (st.chunks.length + chunk_index) sub st.char_offset true],
           st.current, st.char_offset + sub.length⟩) st).current = st.current := by
  intro subs
  induction subs with
  | nil => intro st h1 _; exact ⟨h1, rfl⟩
  | cons sub rest ih =>
    intro st h1 h2
    simp only [List.foldl_cons]
    have hsub := h2 sub (List.mem_cons_self sub rest)
    have hrest : ∀ t ∈ rest, estimate_tokens t ≤ cfg.max_chunk_size ∨ single_sentence t :=
      fun t ht => h2 t (List.mem_cons_of_mem sub ht)
    refine ih _ ?_ hrest
    intro c hc
    rcases List.mem_append.mp hc with hA | hA
    · exact h1 c hA
    · rcases List.mem_singleton.mp hA with rfl
      constructor
      · intro _
        show estimate_tokens sub ≤ cfg.max_chunk_size ∨ single_sentence sub
        exact hsub
      · intro h
        exact absurd h (by simp [create_chunk])

theorem para_step_ok (cfg : Config) (doc_id : String) (page_number : ℤ)
    (chunk_index : ℕ) (st : ChunkState) (para : String) (hst : StOk cfg st) :
    StOk cfg (para_step cfg doc_id page_number chunk_index st para) := by
  by_cases hover : estimate_tokens para > cfg.max_chunk_size
  · simp only [para_step]
    rw [if_pos hover]
    have hfl := flush_chunk_ok cfg doc_id page_number chunk_index st hst
    have hcur := flush_chunk_current doc_id page_number chunk_index st hst
    have h := split_fold_ok cfg doc_id page_number chunk_index
      (split_long_paragraph cfg.max_chunk_size para)
      (flush_chunk doc_id page_number chunk_index st) hfl.1
      (split_long_paragraph_bounded cfg.max_chunk_size para)
    refine ⟨h.1, Or.inl ?_⟩
    rw [h.2, hcur]
  · by_cases hfits :
        estimate_tokens st.current + estimate_tokens para ≤ cfg.target_chunk_size
    · simp only [para_step]
      rw [if_neg hover, if_pos hfits]
      refine ⟨hst.1, Or.inr ?_⟩
      by_cases hne : st.current != ""
      · rw [if_pos hne]
        show estimate_tokens (st.current ++ "\n\n" ++ para) ≤ _
        rw [estimate_tokens_append_sep]
        exact le_trans hfits (le_max_left _ _)
      · rw [if_neg hne]
        have he : st.current = "" := by
          by_cases h : st.current = ""
          · exact h
          · exact absurd (by simpa using h) hne
        rw [he]
        show estimate_tokens ("" ++ para) ≤ _
        have h0 : estimate_tokens ("" ++ para) = estimate_tokens para := rfl
        rw [h0]
        rw [he] at hfits
        have h2 : estimate_tokens "" = 0 := rfl
        rw [h2] at hfits
        exact le_trans (by omega) (le_max_left cfg.target_chunk_size _)
    · simp only [para_step]
      rw [if_neg hover, if_neg hfits]
      have hfl := flush_chunk_ok cfg doc_id page_number chunk_index st hst
      refine ⟨hfl.1, Or.inr ?_⟩
      show estimate_tokens para ≤ _
      have hle : estimate_tokens para ≤ cfg.max_chunk_size := by
        simp only [not_lt] at hover
        omega
      exact le_trans hle (le_max_right _ _)

theorem create_chunks_ok (cfg : Config) (paragraphs : List String)
    (doc_id : String) (page_number : ℤ) (chunk_index : ℕ)
    (global_char_offset : ℕ) :
    ∀ c ∈ (create_chunks_from_paragraphs cfg paragraphs doc_id page_number
        chunk_index global_char_offset).1, ChunkOk cfg c := by
  have hfold : ∀ (ps : List String) (st : ChunkState), StOk cfg st →
      StOk cfg (ps.foldl (para_step cfg doc_id page_number chunk_index) st) := by
    intro ps
    induction ps with
    | nil => intro st h; exact h
    | cons p rest ih =>
      intro st h
      simp only [List.foldl_cons]
      exact ih _ (para_step_ok cfg doc_id page_number chunk_index st p h)
  intro c hc
  unfold create_chunks_from_paragraphs at hc
  have hst : StOk cfg (paragraphs.foldl (para_step cfg doc_id page_number
      chunk_index) ⟨[], "", global_char_offset⟩) := by
    refine hfold paragraphs _ ⟨?_, Or.inl rfl⟩
    intro x hx
    exact absurd hx (List.not_mem_nil x)
  exact (flush_chunk_ok cfg doc_id page_number chunk_index _ hst).1 c hc

end DocumentChunker

/-- C2 (amended): in every chunker output, a sub-chunk produced by splitting
an over-long paragraph either respects `max_chunk_size` or is a single
(over-long) sentence — this can happen at any position of the split, not only
its last entry; and every non-split chunk has `token_count` at most
`max target_chunk_size max_chunk_size` — `min_chunk_size` is not enforced
anywhere, not even for non-final chunks. -/
theorem c2_token_budget_bounds (cfg : DocumentChunker.Config)
    (pages : List PDFPage) (doc_id : String) :
    ∀ c ∈ DocumentChunker.chunk cfg pages doc_id,
      (c.from_split = true →
        c.token_count ≤ cfg.max_chunk_size ∨
          DocumentChunker.single_sentence c.text) ∧
      (c.from_split = false →
        c.token_count ≤ max cfg.target_chunk_size cfg.max_chunk_size) := by
  have hfold : ∀ (ps : List PDFPage) (st : List Chunk × ℕ × ℕ),
      (∀ c ∈ st.1, DocumentChunker.ChunkOk cfg c) →
      ∀ c ∈ (ps.foldl
        (fun (st : List Chunk × ℕ × ℕ) page =>
          let paragraphs := DocumentChunker.extract_paragraphs page
          let pr := DocumentChunker.create_chunks_from_paragraphs cfg paragraphs
            doc_id page.page_number st.2.2 st.2.1
          (st.1 ++ pr.1, st.2.1 + pr.2, st.2.2 + pr.1.length)) st).1,
        DocumentChunker.ChunkOk cfg c := by
    intro ps
    induction ps with
    | nil => intro st h c hc; exact h c hc
    | cons page rest ih =>
      intro st h c hc
      simp only [List.foldl_cons] at hc
      refine ih _ ?_ c hc
      intro x hx
      rcases List.mem_append.mp hx with h1 | h1
      · exact h x h1
      · exact DocumentChunker.create_chunks_ok cfg _ doc_id page.page_number
          st.2.2 st.2.1 x h1
  intro c hc
  unfold DocumentChunker.chunk at hc
  exact hfold pages ([], 0, 0) (by intro x hx; exact absurd hx (List.not_mem_nil x)) c hc

def c2Cfg : DocumentChunker.Config := ⟨3, 4, 4, 1⟩

def c2B1 : TextBlock := ⟨"甲方", ⟨0, 0, 10, 10⟩⟩

def c2B2 : TextBlock := ⟨"租金支付条款规定。好。", ⟨0, 100, 10, 110⟩⟩

def c2Page : PDFPage := ⟨1, [c2B1, c2B2]⟩

unseal List.merge List.mergeSort

theorem c2_extract_eval :
    DocumentChunker.extract_paragraphs c2Page
      = ["甲方", "租金支付条款规定。好。"] := by
  have hj : DocumentChunker.is_new_paragraph c2B2.bbox.y1 (some 0) = true := by
    show decide ((25 : ℚ) < pyAbs ((100 : ℚ) - 0)) = true
    rw [decide_eq_true_eq]
    norm_num [pyAbs]
  have hst1 : DocumentChunker.para_group_step ⟨[], "", none⟩ c2B1
      = ⟨[], "甲方", some 0⟩ := rfl
  have hst2 : DocumentChunker.para_group_step ⟨[], "甲方", some 0⟩ c2B2
      = ⟨["甲方"], "租金支付条款规定。好。", some 100⟩ := by
    simp only [DocumentChunker.para_group_step, hj]
    rfl
  have hsort : c2Page.text_blocks.mergeSort (fun a b =>
      decide (a.bbox.y1 < b.bbox.y1) ||
        (a.bbox.y1 == b.bbox.y1 && decide (a.bbox.x1 ≤ b.bbox.x1)))
      = [c2B1, c2B2] := by decide
  show (if (List.foldl DocumentChunker.para_group_step ⟨[], "", none⟩
      (c2Page.text_blocks.mergeSort fun a b =>
        decide (a.bbox.y1 < b.bbox.y1) ||
          (a.bbox.y1 == b.bbox.y1 && decide (a.bbox.x1 ≤ b.bbox.x1)))).current
      != "" then _ else _) = _
  rw [hsort, List.foldl_cons, List.foldl_cons, List.foldl_nil, hst1, hst2]
  decide

theorem c2_chunk_eval :
    DocumentChunker.chunk c2Cfg [c2Page] "d" =
      [⟨"d_p1_c0", "d", 1, "甲方", "unknown", 0, 2, 2, false⟩,
       ⟨"d_p1_c1", "d", 1, "租金支付条款规定。", "payment", 2, 11, 8, true⟩,
       ⟨"d_p1_c2", "d", 1, "好。", "unknown", 11, 13, 1, true⟩] := by
  have h1 : DocumentChunker.chunk c2Cfg [c2Page] "d"
      = (DocumentChunker.create_chunks_from_paragraphs c2Cfg
          (DocumentChunker.extract_paragraphs c2Page) "d" c2Page.page_number
          0 0).1 := by
    simp only [DocumentChunker.chunk, List.foldl_cons, List.foldl_nil,
      List.nil_append]
  rw [h1, c2_extract_eval]
  decide

/-- C2 counterexample: with `min_chunk_size = 3`, `max_chunk_size = 4`, the
page yields a non-split, non-final chunk of 2 tokens (< min) and a split whose
*first* sub-chunk has 8 tokens (> max) although it is not the last sub-chunk
of the split — both halves of the claim fail. -/
theorem c2_counterexample :
    (DocumentChunker.chunk c2Cfg [c2Page] "d").map
        (fun c => (c.token_count, c.from_split))
      = [(2, false), (8, true), (1, true)] ∧
    DocumentChunker.split_long_paragraph c2Cfg.max_chunk_size
        "租金支付条款规定。好。" = ["租金支付条款规定。", "好。"] ∧
    DocumentChunker.estimate_tokens "租金支付条款规定。" = 8 ∧
    c2Cfg.max_chunk_size = 4 ∧ c2Cfg.min_chunk_size = 3 := by
  refine ⟨?_, by decide, by decide, rfl, rfl⟩
  rw [c2_chunk_eval]
  decide

theorem c2_witness :
    (⟨"d_p1_c0", "d", 1, "甲方", "unknown", 0, 2, 2, false⟩ : Chunk)
        ∈ DocumentChunker.chunk c2Cfg [c2Page] "d" ∧
    (⟨"d_p1_c0", "d", 1, "甲方", "unknown", 0, 2, 2, false⟩ : Chunk).token_count
      ≤ max c2Cfg.target_chunk_size c2Cfg.max_chunk_size := by
  have hmem : (⟨"d_p1_c0", "d", 1, "甲方", "unknown", 0, 2, 2, false⟩ : Chunk)
      ∈ DocumentChunker.chunk c2Cfg [c2Page] "d" := by
    rw [c2_chunk_eval]
    exact List.mem_cons_self _ _
  exact ⟨hmem, (c2_token_budget_bounds c2Cfg [c2Page] "d" _ hmem).2 rfl⟩

/-! ### C9: the cross-rule combined query -/

namespace RuleAwareQueryBuilder

theorem dedup_first_ne_nil (x : String) (xs : List String) :
    dedup_first [] (x :: xs) ≠ [] := by
  show (if ([] : List String).contains x then dedup_first [] xs
        else x :: dedup_first [x] xs) ≠ []
  rw [if_neg (by simp)]
  exact List.cons_ne_nil _ _

theorem most_common_ne_nil (l : List String) (hl : l ≠ []) :
    most_common 10 l ≠ [] := by
  unfold most_common
  intro h
  rcases List.take_eq_nil_iff.mp h with h10 | hms
  · exact absurd h10 (by decide)
  · have hlen := @List.length_mergeSort String
      (fun a b : String => decide (l.count b ≤ l.count a)) (dedup_first [] l)
    rw [hms] at hlen
    cases hd : dedup_first [] l with
    | nil =>
      cases l with
      | nil => exact hl rfl
      | cons x xs => exact dedup_first_ne_nil x xs hd
    | cons y ys =>
      rw [hd] at hlen
      simp at hlen
end RuleAwareQueryBuilder

/-- C9: with `combine_rules` enabled, at least two rules, and a non-empty
pooled keyword list, `build_queries` appends exactly one extra combined query:
`hybrid`, weight `0.6`, carrying every input rule's `rule_id` and the ten most
frequent pooled keywords. -/
theorem c9_cross_rule_combined_query (cfg : RuleAwareQueryBuilder.Config)
    (rules : List Rule) (h2 : 2 ≤ rules.length)
    (hkw : RuleAwareQueryBuilder.combined_keyword_pool cfg.min_keyword_length
      rules ≠ []) :
    ∃ q : SearchQuery,
      (RuleAwareQueryBuilder.build_queries cfg rules true).queries
        = (rules.foldl (fun acc r =>
            acc ++ RuleAwareQueryBuilder.build_queries_for_rule cfg r) []) ++ [q] ∧
      q.query_type = "hybrid" ∧ q.weight = 3/5 ∧
      q.rules = rules.map (·.rule_id) ∧
      (∀ r ∈ rules, r.rule_id ∈ q.rules) ∧
      q.keywords = RuleAwareQueryBuilder.most_common 10
        (RuleAwareQueryBuilder.combined_keyword_pool cfg.min_keyword_length rules) := by
  have hgt : (decide (rules.length > 1)) = true := by
    rw [decide_eq_true_eq]
    omega
  have hnotlt : ¬ (rules.length < 2) := by omega
  have htop : ¬ (RuleAwareQueryBuilder.most_common 10
      (RuleAwareQueryBuilder.combined_keyword_pool cfg.min_keyword_length
        rules)).isEmpty = true := by
    rw [List.isEmpty_iff]
    exact RuleAwareQueryBuilder.most_common_ne_nil _ hkw
  refine ⟨⟨"combined_" ++ toString rules.length ++ "rules",
    " ".intercalate (RuleAwareQueryBuilder.most_common 10
      (RuleAwareQueryBuilder.combined_keyword_pool cfg.min_keyword_length rules)),
    RuleAwareQueryBuilder.most_common 10
      (RuleAwareQueryBuilder.combined_keyword_pool cfg.min_keyword_length rules),
    rules.foldl (fun acc r => acc ∪ r.retrieval_tags.toFinset) ∅,
    rules.map (·.rule_id), "hybrid", 3/5⟩, ?_, rfl, rfl, rfl, ?_, rfl⟩
  · show (if (true && decide (rules.length > 1)) = true then
        _ ++ RuleAwareQueryBuilder.build_combined_queries cfg.min_keyword_length rules
      else _) = _
    rw [hgt]
    simp only [Bool.and_self, if_true]
    unfold RuleAwareQueryBuilder.build_combined_queries
    rw [if_neg hnotlt, if_neg htop]
  · intro r hr
    exact List.mem_map_of_mem _ hr

/-- Scenario E's two rules, sharing the keyword "保密" through their string
params (`keyword` on one rule, `topic` on the other). -/
def c9Cfg : RuleAwareQueryBuilder.Config := ⟨5, 2, 100⟩

def c9R1 : Rule :=
  ⟨"confidentiality_required", "保密条款要求", "requirement", "",
   [("keyword", .pstr "保密")], ["confidentiality"]⟩

def c9R2 : Rule :=
  ⟨"nda_scope", "保密范围", "requirement", "",
   [("topic", .pstr "保密")], ["confidentiality"]⟩

theorem c9_witness :
    (∃ q : SearchQuery,
      (RuleAwareQueryBuilder.build_queries c9Cfg [c9R1, c9R2] true).queries
        = ([c9R1, c9R2].foldl (fun acc r =>
            acc ++ RuleAwareQueryBuilder.build_queries_for_rule c9Cfg r) []) ++ [q] ∧
      q.query_type = "hybrid" ∧ q.weight = 3/5 ∧
      q.rules = [c9R1, c9R2].map (·.rule_id) ∧
      (∀ r ∈ [c9R1, c9R2], r.rule_id ∈ q.rules) ∧
      q.keywords = RuleAwareQueryBuilder.most_common 10
        (RuleAwareQueryBuilder.combined_keyword_pool c9Cfg.min_keyword_length
          [c9R1, c9R2])) ∧
    RuleAwareQueryBuilder.most_common 10
      (RuleAwareQueryBuilder.combined_keyword_pool c9Cfg.min_keyword_length
        [c9R1, c9R2]) = ["保密"] ∧
    2 ≤ ([c9R1, c9R2] : List Rule).length :=
  ⟨c9_cross_rule_combined_query c9Cfg [c9R1, c9R2] (by decide) (by decide),
   by decide, by decide⟩

/-! ### C8: the validator's acceptance condition -/

namespace ReviewPromptValidator

/-- Transcribed from the claim's words (C8), not from the code: the parsed
outputs the claim says the validator accepts -- required keys present, enum
`status`, well-formed `evidence` items, and a `confidence` that, when present,
is a *number* in `[0,1]`. -/
def spec_accepts (j : Json) : Prop :=
  ∃ kvs, j = Json.obj kvs ∧
    (kvs.lookup "rule_id").isSome = true ∧
    (kvs.lookup "reason").isSome = true ∧
    (∃ st : String, kvs.lookup "status" = some (Json.str st) ∧
      (st = "PASS" ∨ st = "RISK" ∨ st = "MISSING")) ∧
    (∀ ev, kvs.lookup "evidence" = some ev →
      ∃ items, ev = Json.arr items ∧ ∀ it ∈ items,
        ∃ ikvs, it = Json.obj ikvs ∧
          (ikvs.lookup "chunk_id").isSome = true ∧
          (ikvs.lookup "page").isSome = true ∧
          (ikvs.lookup "text").isSome = true) ∧
    (∀ c, kvs.lookup "confidence" = some c →
      ∃ q : ℚ, c = Json.num q ∧ 0 ≤ q ∧ q ≤ 1)

/-- The acceptance condition the code actually implements: as `spec_accepts`,
except that a boolean `confidence` is also accepted (Python's
`isinstance(conf, (int, float))` admits `bool`, and `0 <= True <= 1`). -/
def amended_accepts (j : Json) : Prop :=
  ∃ kvs, j = Json.obj kvs ∧
    (kvs.lookup "rule_id").isSome = true ∧
    (kvs.lookup "reason").isSome = true ∧
    (∃ st : String, kvs.lookup "status" = some (Json.str st) ∧
      (st = "PASS" ∨ st = "RISK" ∨ st = "MISSING")) ∧
    (∀ ev, kvs.lookup "evidence" = some ev →
      ∃ items, ev = Json.arr items ∧ ∀ it ∈ items,
        ∃ ikvs, it = Json.obj ikvs ∧
          (ikvs.lookup "chunk_id").isSome = true ∧
          (ikvs.lookup "page").isSome = true ∧
          (ikvs.lookup "text").isSome = true) ∧
    (∀ c, kvs.lookup "confidence" = some c →
      (∃ q : ℚ, c = Json.num q ∧ 0 ≤ q ∧ q ≤ 1) ∨ ∃ b, c = Json.bool b)

theorem check_required_none_iff (j : Json) (fs : List String) :
    check_required j fs = none ↔ ∀ f ∈ fs, j.pyContains f = some true := by
  induction fs with
  | nil => simp [check_required]
  | cons f fs ih =>
    cases hc : j.pyContains f with
    | none => simp [check_required, hc]
    | some b =>
      cases b with
      | false => simp [check_required, hc]
      | true => simp [check_required, hc, ih]

theorem status_error_none_iff (j : Json) :
    status_error j = none ↔ ∃ st : String,
      j.pyIndex "status" = some (Json.str st) ∧
      (st = "PASS" ∨ st = "RISK" ∨ st = "MISSING") := by
  unfold status_error
  cases hs : j.pyIndex "status" with
  | none => simp
  | some sv =>
    cases sv with
    | str s =>
      by_cases h : s = "PASS" ∨ s = "RISK" ∨ s = "MISSING" <;>
        simp [h, Json.str.injEq] <;> tauto
    | null => simp
    | bool b => simp
    | num q => simp
    | arr xs => simp
    | obj kvs => simp

theorem evidence_item_error_none_iff (it : Json) :
    evidence_item_error it = none ↔ ∃ ikvs, it = Json.obj ikvs ∧
      (ikvs.lookup "chunk_id").isSome = true ∧
      (ikvs.lookup "page").isSome = true ∧
      (ikvs.lookup "text").isSome = true := by
  cases it with
  | obj kvs =>
    simp only [Json.obj.injEq, exists_eq_left']
    show evidence_item_error.go kvs ["chunk_id", "page", "text"] = none ↔ _
    cases h1 : (kvs.lookup "chunk_id").isSome <;>
      cases h2 : (kvs.lookup "page").isSome <;>
        cases h3 : (kvs.lookup "text").isSome <;>
          simp only [evidence_item_error.go, h1, h2, h3, Bool.false_eq_true,
            if_false, if_true, reduceCtorEq] <;>
          simp
  | null => simp [evidence_item_error]
  | bool b => simp [evidence_item_error]
  | num q => simp [evidence_item_error]
  | str s => simp [evidence_item_error]
  | arr xs => simp [evidence_item_error]

theorem evidence_go_none_iff (items : List Json) :
    evidence_error.go items = none ↔
      ∀ it ∈ items, evidence_item_error it = none := by
  induction items with
  | nil => simp [evidence_error.go]
  | cons it rest ih =>
    cases he : evidence_item_error it with
    | some e => simp [evidence_error.go, he]
    | none => simp [evidence_error.go, he, ih]

theorem evidence_error_none_iff (j : Json) :
    evidence_error j = none ↔ ∀ ev, j.pyIndex "evidence" = some ev →
      ∃ items, ev = Json.arr items ∧
        ∀ it ∈ items, evidence_item_error it = none := by
  unfold evidence_error
  cases he : j.pyIndex "evidence" with
  | none => simp
  | some ev =>
    cases ev with
    | arr items => simp [evidence_go_none_iff]
    | null => simp
    | bool b => simp
    | num q => simp
    | str s => simp
    | obj kvs => simp

theorem confidence_error_none_iff (j : Json) :
    confidence_error j = none ↔ ∀ c, j.pyIndex "confidence" = some c →
      (∃ q : ℚ, c = Json.num q ∧ 0 ≤ q ∧ q ≤ 1) ∨ ∃ b, c = Json.bool b := by
  unfold confidence_error
  cases hc : j.pyIndex "confidence" with
  | none => simp
  | some c =>
    cases c with
    | num q =>
      by_cases h0 : 0 ≤ q <;> by_cases h1 : q ≤ 1 <;>
        simp [h0, h1, Json.num.injEq]
    | bool b => simp
    | null => simp
    | str s => simp
    | arr xs => simp
    | obj kvs => simp

theorem validation_error_none_iff (j : Json) :
    validation_error j = none ↔
      check_required j ["rule_id", "status", "reason"] = none ∧
      status_error j = none ∧ evidence_error j = none ∧
      confidence_error j = none := by
  unfold validation_error
  cases h1 : check_required j ["rule_id", "status", "reason"] with
  | some e => simp
  | none =>
    cases h2 : status_error j with
    | some e => simp
    | none =>
      cases h3 : evidence_error j with
      | some e => simp
      | none => simp

theorem validation_error_none_iff_amended (j : Json) :
    validation_error j = none ↔ amended_accepts j := by
  rw [validation_error_none_iff]
  constructor
  · rintro ⟨hreq, hst, hev, hconf⟩
    rcases (status_error_none_iff j).mp hst with ⟨st, hidx, hst3⟩
    cases j with
    | obj kvs =>
      have hrid := (check_required_none_iff _ _).mp hreq "rule_id" (by simp)
      have hrsn := (check_required_none_iff _ _).mp hreq "reason" (by simp)
      have hev' := (evidence_error_none_iff _).mp hev
      have hcf' := (confidence_error_none_iff _).mp hconf
      refine ⟨kvs, rfl, Option.some.inj hrid, Option.some.inj hrsn,
        ⟨st, hidx, hst3⟩, ?_, hcf'⟩
      intro ev hevk
      rcases hev' ev hevk with ⟨items, rfl, hitems⟩
      exact ⟨items, rfl, fun it hit =>
        (evidence_item_error_none_iff it).mp (hitems it hit)⟩
    | null => simp [Json.pyIndex] at hidx
    | bool b => simp [Json.pyIndex] at hidx
    | num q => simp [Json.pyIndex] at hidx
    | str s => simp [Json.pyIndex] at hidx
    | arr xs => simp [Json.pyIndex] at hidx
  · rintro ⟨kvs, rfl, hrid, hrsn, ⟨st, hlook, hst3⟩, hev, hconf⟩
    refine ⟨?_, ?_, ?_, ?_⟩
    · refine (check_required_none_iff _ _).mpr ?_
      intro f hf
      rcases List.mem_cons.mp hf with rfl | hf
      · exact congrArg some hrid
      rcases List.mem_cons.mp hf with rfl | hf
      · show some (kvs.lookup "status").isSome = some true
        rw [hlook]
        rfl
      rcases List.mem_cons.mp hf with rfl | hf
      · exact congrArg some hrsn
      · exact absurd hf (List.not_mem_nil _)
    · exact (status_error_none_iff _).mpr ⟨st, hlook, hst3⟩
    · refine (evidence_error_none_iff _).mpr ?_
      intro ev hevk
      rcases hev ev hevk with ⟨items, rfl, hitems⟩
      exact ⟨items, rfl, fun it hit =>
        (evidence_item_error_none_iff it).mpr (hitems it hit)⟩
    · exact (confidence_error_none_iff _).mpr hconf

end ReviewPromptValidator

/-- C8 (amended): `validate_prompt_output` is total and fails closed --
`valid:false` with a non-null error exactly when the fence-stripped text does
not parse or the parsed JSON is not accepted, where the acceptance condition
is the claim's except that a boolean `confidence` is also accepted (Python's
`isinstance(conf, (int, float))` admits `bool` and `0 <= True <= 1`); on
acceptance it returns `valid:true` with the parsed data and no error. -/
theorem c8_validator_fails_closed (parse : String → Option Json)
    (output : String) :
    ((ReviewPromptValidator.validate_prompt_output parse output).valid = false ∧
      (ReviewPromptValidator.validate_prompt_output parse output).error ≠ none ↔
      ¬ ∃ j, parse (ReviewPromptValidator.strip_fences output) = some j ∧
        ReviewPromptValidator.amended_accepts j) ∧
    ((ReviewPromptValidator.validate_prompt_output parse output).valid = true →
      (ReviewPromptValidator.validate_prompt_output parse output).error = none ∧
      (ReviewPromptValidator.validate_prompt_output parse output).data
        = parse (ReviewPromptValidator.strip_fences output)) := by
  cases hp : parse (ReviewPromptValidator.strip_fences output) with
  | none =>
    have hres : ReviewPromptValidator.validate_prompt_output parse output
        = ⟨false, some "Invalid JSON", none⟩ := by
      unfold ReviewPromptValidator.validate_prompt_output
      rw [hp]
    rw [hres]
    refine ⟨⟨fun _ => ?_, fun _ => ⟨rfl, fun h => Option.noConfusion h⟩⟩,
      fun h => Bool.noConfusion h⟩
    rintro ⟨j, hj, -⟩
    exact Option.noConfusion hj
  | some data =>
    cases hv : ReviewPromptValidator.validation_error data with
    | some e =>
      have hres : ReviewPromptValidator.validate_prompt_output parse output
          = ⟨false, some e, none⟩ := by
        unfold ReviewPromptValidator.validate_prompt_output
        rw [hp]
        simp only [hv]
      rw [hres]
      refine ⟨⟨fun _ => ?_, fun _ => ⟨rfl, fun h => Option.noConfusion h⟩⟩,
        fun h => Bool.noConfusion h⟩
      rintro ⟨j, hj, hacc⟩
      obtain rfl : data = j := Option.some.inj hj
      rw [(ReviewPromptValidator.validation_error_none_iff_amended data).mpr
        hacc] at hv
      exact Option.noConfusion hv
    | none =>
      have hres : ReviewPromptValidator.validate_prompt_output parse output
          = ⟨true, none, some data⟩ := by
        unfold ReviewPromptValidator.validate_prompt_output
        rw [hp]
        simp only [hv]
      rw [hres]
      refine ⟨⟨fun h => Bool.noConfusion h.1, fun hne => absurd ?_ hne⟩,
        fun _ => ⟨rfl, rfl⟩⟩
      exact ⟨data, rfl,
        (ReviewPromptValidator.validation_error_none_iff_amended data).mp hv⟩

/-- A model output whose `confidence` is the JSON boolean `true`. -/
def c8Out : String :=
  "\x7b\"rule_id\": \"r\", \"status\": \"PASS\", \"reason\": \"ok\", \"confidence\": true\x7d"

def c8Json : Json :=
  Json.obj [("rule_id", Json.str "r"), ("status", Json.str "PASS"),
            ("reason", Json.str "ok"), ("confidence", Json.bool true)]

/-- `json.loads` on the strings this development feeds the validator. -/
def c8Parse : String → Option Json := fun s =>
  if s = c8Out then some c8Json else none

/-- C8, counterexample to the claim as stated: the output whose `confidence`
is the JSON boolean `true` has a `confidence` key that is not a number, so 
the claim requires `valid:false` with a non-null error; the validator accepts
it (`isinstance(True, int)` holds in Python and `0 <= True <= 1`). -/
theorem c8_counterexample :
    c8Parse
      (ReviewPromptValidator.strip_fences c8Out)
      = some c8Json ∧
    (∀ kvs, c8Json = Json.obj kvs →
      kvs.lookup "confidence" = some (Json.bool true)) ∧
    ¬ ReviewPromptValidator.spec_accepts c8Json ∧
    (ReviewPromptValidator.validate_prompt_output c8Parse
      c8Out).valid = true ∧
    (ReviewPromptValidator.validate_prompt_output c8Parse
      c8Out).error = none := by
  refine ⟨rfl, ?_, ?_, rfl, rfl⟩
  · intro kvs h
    injection h with h'
    subst h'
    rfl
  · rintro ⟨kvs, hobj, -, -, -, -, hconf⟩
    injection hobj with h'
    subst h'
    rcases hconf (Json.bool true) rfl with ⟨q, hq, -⟩
    exact Json.noConfusion hq

/-- Scenario D's output: `\x7b"status": "PASS"\x7d`, missing `reason` (and
`rule_id`), plus a fully valid output, under one `json.loads` model. -/
def c8wOutD : String := "\x7b\"status\": \"PASS\"\x7d"

def c8wOutOk : String := "\x7b\"rule_id\": \"r\", \"status\": \"PASS\", \"reason\": \"ok\"\x7d"

def c8wParse : String → Option Json := fun s =>
  if s = c8wOutD then some (Json.obj [("status", Json.str "PASS")])
  else if s = c8wOutOk then
    some (Json.obj [("rule_id", Json.str "r"), ("status", Json.str "PASS"),
                    ("reason", Json.str "ok")])
  else none

theorem c8_witness :
    ((ReviewPromptValidator.validate_prompt_output c8wParse c8wOutD).error
        = some "Missing required field: rule_id" ∧
      ¬ ∃ j, c8wParse (ReviewPromptValidator.strip_fences c8wOutD) = some j ∧
        ReviewPromptValidator.amended_accepts j) ∧
    ((ReviewPromptValidator.validate_prompt_output c8wParse c8wOutOk).valid
        = true ∧
      (ReviewPromptValidator.validate_prompt_output c8wParse c8wOutOk).error
        = none ∧
      (ReviewPromptValidator.validate_prompt_output c8wParse c8wOutOk).data
        = c8wParse (ReviewPromptValidator.strip_fences c8wOutOk)) :=
  ⟨⟨rfl, (c8_validator_fails_closed c8wParse c8wOutD).1.mp
      ⟨rfl, fun h => Option.noConfusion h⟩⟩,
   ⟨rfl, ((c8_validator_fails_closed c8wParse c8wOutOk).2 rfl).1,
    ((c8_validator_fails_closed c8wParse c8wOutOk).2 rfl).2⟩⟩
